import Mathlib

/-
  Verification development for the ctrl_bps graph-construction core
  (src/python/lsst/ctrl/bps/bpsCore.py) and the generic-workflow container
  (specified in section 4.4 of the design document; exercised by
  src/tests/test_generic_workflow.py).

  The Python code is shallowly embedded: the mutable networkx.DiGraph becomes
  an association list of named nodes plus an edge list, the science-graph and
  workflow-graph builders become folds over the plan and over the node list,
  and the side-effecting per-job descriptor writes are recorded in an explicit
  write log carried in the builder state.  Hierarchical BpsConfig resolution is
  an external collaborator in the design (section 6), so configuration lookups
  are abstracted as resolution functions carried by a record.
-/

namespace CtrlBps

/- ===== Decimal rendering: the Python format string "%06d" ===== -/

/-- Character for a single decimal digit d (0 le d le 9). -/
def digitChar (d : Nat) : Char := Char.ofNat (48 + d)

/-- Fuel-driven most-significant-first decimal digit list of a Nat. -/
def natDigitsAux (fuel : Nat) (n : Nat) : List Char :=
  match fuel with
  | 0 => []
  | f + 1 => if n < 10 then [digitChar n] else natDigitsAux f (n / 10) ++ [digitChar (n % 10)]

/-- Decimal digit characters of n, most significant first. -/
def natDigits (n : Nat) : List Char := natDigitsAux (n + 1) n

/-- Python percent-06d: zero-pad the decimal rendering to width at least 6.
    Used for every node identifier in bpsCore. -/
def fmt6 (n : Nat) : String :=
  String.mk (List.replicate (6 - (natDigits n).length) '0' ++ natDigits n)

/-- Python str of a Nat (used in the run summary "%d"). -/
def natStr (n : Nat) : String := String.mk (natDigits n)

/- ===== Small models of the Python string operations used by bpsCore ===== -/

/-- Python s.startswith(c) for a single-character pattern (bpsCore only tests "+"). -/
def strStartsWith (s : String) (c : Char) : Bool :=
  match s.data with
  | [] => false
  | c0 :: _ => c0 = c

/-- Python s[1:]. -/
def strDrop1 (s : String) : String := String.mk s.data.tail

/-- Python whitespace test for str.strip (the characters that matter here). -/
def isSpaceChar (c : Char) : Bool := c = ' ' || c = '\t' || c = '\n' || c = '\r'

/-- Python s.strip(). -/
def pyStrip (s : String) : String :=
  String.mk (((s.data.dropWhile isSpaceChar).reverse.dropWhile isSpaceChar).reverse)

/-- Helper for Python s.split(","): accumulate the current field (reversed). -/
def splitCommaAux (acc : List Char) : List Char → List String
  | [] => [String.mk acc.reverse]
  | c :: t => if c = ',' then String.mk acc.reverse :: splitCommaAux [] t
              else splitCommaAux (c :: acc) t

/-- Python s.split(","). -/
def splitComma (s : String) : List String := splitCommaAux [] s.data

/-- Helper for Python s.split("."). -/
def splitDotAux (acc : List Char) : List Char → List String
  | [] => [String.mk acc.reverse]
  | c :: t => if c = '.' then String.mk acc.reverse :: splitDotAux [] t
              else splitDotAux (c :: acc) t

/-- Python s.split("."). -/
def splitDot (s : String) : List String := splitDotAux [] s.data

/-- Python ".".join(parts). -/
def joinDot : List String → String
  | [] => ""
  | [s] => s
  | s :: t => s ++ "." ++ joinDot t

/-- Python ";".join(parts). -/
def joinSemi : List String → String
  | [] => ""
  | [s] => s
  | s :: t => s ++ ";" ++ joinSemi t

/-- The task-node display label: ".".join(taskDef.taskName.split(".")[-2:]). -/
def lastTwoJoin (s : String) : String :=
  let parts := splitDot s
  joinDot (parts.drop (parts.length - 2))

/-- re.sub(r": ", "=", s): replace every colon-space with an equals sign,
    scanning left to right. -/
def subColonSpace : List Char → List Char
  | ':' :: ' ' :: t => '=' :: subColonSpace t
  | c :: t => c :: subColonSpace t
  | [] => []

/-- pretty_dataset_label from bpsCore: ": " becomes "=", "+" and "," become
    newlines, braces are removed. -/
def pretty_dataset_label (origName : String) : String :=
  let s1 := subColonSpace origName.data
  let s2 := s1.map (fun c => if c = '+' then '\n' else if c = ',' then '\n' else c)
  String.mk (s2.filter (fun c => ¬ (c = '\x7b' || c = '\x7d')))

/- ===== The quantum-graph data model (inputs of bpsCore) ===== -/

/-- A dataset reference: dataset-type name plus the rendered data coordinate
    (dsRef.datasetType.name and dsRef.dataId as interpolated by percent-s). -/
structure DatasetRef where
  datasetTypeName : String
  dataId : String
deriving DecidableEq, Repr

/-- The dedup key "%s+%s" % (dsRef.datasetType.name, dsRef.dataId). -/
def dsNameOf (r : DatasetRef) : String := r.datasetTypeName ++ "+" ++ r.dataId

/-- Task definition: the fields of taskDef that bpsCore reads. -/
structure TaskDef where
  label : String
  taskName : String
deriving DecidableEq, Repr

/-- One quantum: its predicted inputs and outputs flattened in iteration order
    (the Python double loop over predictedInputs.values() / outputs.values()),
    plus its initInputs payload. -/
structure Quantum where
  predictedInputs : List DatasetRef
  outputs : List DatasetRef
  initInputs : List DatasetRef
deriving DecidableEq, Repr

/-- One task group of the quantum graph (class QuantumGraphTaskNodes): a task
    definition together with its quanta. -/
structure QuantumGraphTaskNodes where
  taskDef : TaskDef
  quanta : List Quantum
  initInputs : List DatasetRef
deriving DecidableEq, Repr

/-- The plan: the quantum graph is iterated as a sequence of task groups. -/
abbrev Plan := List QuantumGraphTaskNodes

/- ===== countQuantum and the plan reader ===== -/

/-- countQuantum from bpsCore: total number of quanta over all task groups. -/
def countQuantum (qgraph : Plan) : Nat :=
  qgraph.foldl (fun cnt nodes => cnt + nodes.quanta.length) 0

/-- _readQuantumGraph: after unpickling (I/O abstracted away), the plan is
    rejected with RuntimeError("QuantumGraph is empty") when countQuantum is 0,
    and otherwise returned unchanged. -/
def readQuantumGraph (qgraph : Plan) : Except String Plan :=
  if countQuantum qgraph = 0 then .error "QuantumGraph is empty" else .ok qgraph

/- ===== Graph representation ===== -/

/-- The two node variants (constants FILENODE / TASKNODE from bpsConfig). -/
inductive NodeType where
  | FILENODE
  | TASKNODE
deriving DecidableEq, Repr

/-- Node attribute record: the networkx per-node attribute dictionary, with one
    field per attribute key that bpsCore ever writes.  Absent keys are none
    (or the empty string for the always-written display attributes). -/
structure NodeData where
  nodeType : NodeType
  task_def_id : Option Nat := none
  taskAbbrev : Option String := none
  shape : String := ""
  fillcolor : Option String := none
  style : String := ""
  label : String := ""
  lfn : Option String := none
  pfn : Option String := none
  ignore : Option Bool := none
  data_type : Option String := none
  job_attrib : Option (List (String × String)) := none
  exec_name : Option String := none
  exec_args : Option String := none
  jobProfile : Option (List (String × String)) := none
  jobAttribs : Option (List (String × String)) := none
deriving DecidableEq, Repr

/-- Association-list lookup (first match), the model for dictionary lookup. -/
def alookup {α : Type} (l : List (String × α)) (k : String) : Option α :=
  (l.find? (fun p => p.1 = k)).map (fun p => p.2)

/-- A networkx DiGraph: named nodes with attributes, in insertion order, plus
    directed edges in insertion order (networkx stores each edge once). -/
structure DiGraph where
  nodes : List (String × NodeData)
  edges : List (String × String)
deriving DecidableEq, Repr

/-- networkx add_node: a new name is appended; re-adding an existing name
    updates its attributes in place (bpsCore always re-adds with the same
    attribute values, so update equals replacement). -/
def DiGraph.addNode (g : DiGraph) (name : String) (d : NodeData) : DiGraph :=
  if name ∈ g.nodes.map Prod.fst then
    { g with nodes := g.nodes.map (fun p => if p.1 = name then (name, d) else p) }
  else
    { g with nodes := g.nodes ++ [(name, d)] }

/-- networkx add_edge for endpoints that already exist (every add_edge call in
    bpsCore has both endpoints present): appended once, duplicates ignored. -/
def DiGraph.addEdge (g : DiGraph) (u v : String) : DiGraph :=
  if (u, v) ∈ g.edges then g else { g with edges := g.edges ++ [(u, v)] }

/-- Write back a mutated node-attribute dictionary (Python mutates the dict
    obtained from graph.nodes[name] in place). -/
def DiGraph.setNode (g : DiGraph) (name : String) (d : NodeData) : DiGraph :=
  { g with nodes := g.nodes.map (fun p => if p.1 = name then (name, d) else p) }

/-- Attribute lookup for a named node. -/
def DiGraph.nodeData (g : DiGraph) (name : String) : Option NodeData :=
  alookup g.nodes name

/- ===== Configuration resolution (external collaborator, section 6) ===== -/

/-- The configuration facts bpsCore queries.  BpsConfig itself (hierarchical
    search with curvals) is outside the core per the design, so each lookup is
    abstracted as a resolution function of the current task abbreviation. -/
structure BpsConfig where
  /-- config["pipeline"] when present: the explicit pipeline order string. -/
  pipelineOverride : Option String := none
  /-- config.get("runInit", default False). -/
  runInit : Bool := false
  /-- config["submitPath"]. -/
  submitPath : String := ""
  project : String := ""
  campaign : String := ""
  operatorName : String := ""
  payloadName : String := ""
  /-- search("runQuantumExec") with curr_pipetask bound to the argument. -/
  runQuantumExec : String → String := fun _ => ""
  /-- search("runQuantumArgs") with curr_pipetask bound to the argument. -/
  runQuantumArgs : String → String := fun _ => ""
  /-- search("computeSite") with curr_pipetask bound to the argument. -/
  computeSite : String → String := fun _ => ""
  /-- config["site"][site]["profile"]["condor"] as an item list, none when the
      site has no profile/condor section. -/
  siteCondor : String → Option (List (String × String)) := fun _ => none
  /-- optional search("requestMemory") keyed by the task abbreviation. -/
  requestMemory : String → Option String := fun _ => none
  /-- optional search("requestCpus") keyed by the task abbreviation. -/
  requestCpus : String → Option String := fun _ => none

/-- Python dict assignment d[k] = v on an association list: overwrite the
    existing binding or append a new one. -/
def assocInsert (m : List (String × String)) (k v : String) : List (String × String) :=
  if k ∈ m.map Prod.fst then m.map (fun p => if p.1 = k then (k, v) else p)
  else m ++ [(k, v)]

/-- Bump taskcnts[k] (initializing to 0 first, as bpsCore does). -/
def bumpCount (m : List (String × Nat)) (k : String) : List (String × Nat) :=
  if k ∈ m.map Prod.fst then m.map (fun p => if p.1 = k then (k, p.2 + 1) else p)
  else m ++ [(k, 1)]

/-- _updateTask: resolve executable name and arguments, then scan the condor
    profile of the compute site; keys starting with "+" become scheduler
    attributes with the marker stripped, all other keys become profile
    parameters; optional requestMemory / requestCpus set or override the
    request_memory / request_cpus profile entries; the two maps are attached
    to the node only when non-empty. -/
def updateTask (cfg : BpsConfig) (taskAbbrev : String) (tnode : NodeData) : NodeData :=
  let site := cfg.computeSite taskAbbrev
  let items := (cfg.siteCondor site).getD []
  let maps := items.foldl
    (fun (m : List (String × String) × List (String × String)) kv =>
      if strStartsWith kv.1 '+' then (assocInsert m.1 (strDrop1 kv.1) kv.2, m.2)
      else (m.1, assocInsert m.2 kv.1 kv.2))
    ([], [])
  let jobAttribs := maps.1
  let jobProfile := maps.2
  let jobProfile := match cfg.requestMemory taskAbbrev with
    | some v => assocInsert jobProfile "request_memory" v
    | none => jobProfile
  let jobProfile := match cfg.requestCpus taskAbbrev with
    | some v => assocInsert jobProfile "request_cpus" v
    | none => jobProfile
  { tnode with
    exec_name := some (cfg.runQuantumExec taskAbbrev),
    exec_args := some (cfg.runQuantumArgs taskAbbrev),
    jobProfile := if jobProfile.length > 0 then some jobProfile else tnode.jobProfile,
    jobAttribs := if jobAttribs.length > 0 then some jobAttribs else tnode.jobAttribs }

/- ===== _createScienceGraph ===== -/

/-- The science-graph builder state: the graph, the shared node counter ncnt,
    the task and file counters, the dedup map mapId, the per-task-node quantum
    store qgnodes, and the derived pipeline label list. -/
structure SciState where
  sciGraph : DiGraph
  ncnt : Nat
  tcnt : Nat
  dcnt : Nat
  mapId : List (String × Nat)
  qgnodes : List (String × QuantumGraphTaskNodes)
  pipeline : List String
deriving Repr

/-- Attributes of a science-graph file node for a given dedup key. -/
def mkSciFileNode (dsName : String) : NodeData :=
  { nodeType := NodeType.FILENODE, label := pretty_dataset_label dsName,
    shape := "box", style := "rounded" }

/-- Attributes of a science-graph task node. -/
def mkSciTaskNode (taskId : Nat) (td : TaskDef) : NodeData :=
  { nodeType := NodeType.TASKNODE, task_def_id := some taskId,
    taskAbbrev := some td.label, shape := "box", fillcolor := some "gray",
    style := "filled", label := lastTwoJoin td.taskName }

/-- Process one dataset reference of a quantum: allocate a file node id on
    first sight of the dedup key, re-add the file node, and add the dependency
    edge (file to task for inputs, task to file for outputs). -/
def processDsRef (isInput : Bool) (tnodeName : String) (st : SciState)
    (dsRef : DatasetRef) : SciState :=
  let dsName := dsNameOf dsRef
  match alookup st.mapId dsName with
  | some v =>
      let fnodeName := fmt6 v
      let g := st.sciGraph.addNode fnodeName (mkSciFileNode dsName)
      let g := if isInput then g.addEdge fnodeName tnodeName else g.addEdge tnodeName fnodeName
      { st with sciGraph := g }
  | none =>
      let n := st.ncnt + 1
      let fnodeName := fmt6 n
      let g := st.sciGraph.addNode fnodeName (mkSciFileNode dsName)
      let g := if isInput then g.addEdge fnodeName tnodeName else g.addEdge tnodeName fnodeName
      { st with
          sciGraph := g
          ncnt := n
          dcnt := st.dcnt + 1
          mapId := st.mapId ++ [(dsName, n)] }

/-- Process one quantum: create its task node under the next counter value,
    record its singleton quantum store entry, then process its inputs and
    outputs. -/
def processQuantum (taskId : Nat) (td : TaskDef) (st : SciState) (q : Quantum) : SciState :=
  let n := st.ncnt + 1
  let tnodeName := fmt6 n
  let st := { st with
    ncnt := n, tcnt := st.tcnt + 1,
    sciGraph := st.sciGraph.addNode tnodeName (mkSciTaskNode taskId td),
    qgnodes := st.qgnodes ++ [(tnodeName, ⟨td, [q], q.initInputs⟩)] }
  let st := q.predictedInputs.foldl (processDsRef true tnodeName) st
  q.outputs.foldl (processDsRef false tnodeName) st

/-- Process one task group: append its label to the derived pipeline, then
    process each quantum. -/
def processTaskGroup (taskId : Nat) (st : SciState) (grp : QuantumGraphTaskNodes) : SciState :=
  let st := { st with pipeline := st.pipeline ++ [grp.taskDef.label] }
  grp.quanta.foldl (processQuantum taskId grp.taskDef) st

/-- The enumerate(qgraph) loop, carrying the running task index. -/
def processGroups : Nat → SciState → Plan → SciState
  | _, st, [] => st
  | taskId, st, grp :: rest => processGroups (taskId + 1) (processTaskGroup taskId st grp) rest

/-- The empty builder state. -/
def initSciState : SciState :=
  { sciGraph := { nodes := [], edges := [] }, ncnt := 0, tcnt := 0, dcnt := 0,
    mapId := [], qgnodes := [], pipeline := [] }

/-- _createScienceGraph: build the expanded graph from the quantum graph; the
    derived pipeline is replaced by config["pipeline"].split(",") when that key
    is present. -/
def createScienceGraph (cfg : BpsConfig) (qgraph : Plan) : SciState :=
  let st := processGroups 0 initSciState qgraph
  { st with pipeline := match cfg.pipelineOverride with
      | some s => splitComma s
      | none => st.pipeline }

/- ===== _createWorkflowGraph ===== -/

/-- "quantum%s.pickle" % nodename. -/
def qlfnOf (nodename : String) : String := "quantum" ++ nodename ++ ".pickle"

/-- os.path.join(submitPath, "input", taskAbbrev, qlfn) for the relative
    component names bpsCore passes. -/
def osJoin4 (a b c d : String) : String := a ++ "/" ++ b ++ "/" ++ c ++ "/" ++ d

/-- The workflow-graph builder state: the graph under construction, the resumed
    node counter, the quantum counter, per-label job counts, the per-label init
    node cache (label, init task node, init output file node), the last value
    of the Python local variable sfNodeName, and the log of descriptor writes
    (path written, quantum store entry saved there). -/
structure WFState where
  graph : DiGraph
  ncnt : Nat
  qcnt : Nat
  taskcnts : List (String × Nat)
  init_nodes : List (String × String × String)
  sfNodeName : Option String
  writes : List (String × Option QuantumGraphTaskNodes)
deriving DecidableEq, Repr

/-- One iteration of the node loop of _createWorkflowGraph.  The FILENODE
    branch stamps lineage attributes; the TASKNODE branch creates the quantum
    descriptor file node, records the descriptor write (save_single_qgnode
    persists a graph holding exactly the stored quanta of this node), resolves
    task metadata, and optionally creates or reuses the per-label init nodes.
    In the reuse branch the Python code refreshes only stNodeName and then adds
    the edge from the stale local sfNodeName, which this embedding reproduces
    through the sfNodeName state field. -/
def processWFNode (cfg : BpsConfig) (gname : String)
    (qgnodes : List (String × QuantumGraphTaskNodes)) (st : WFState)
    (nodename : String) : WFState :=
  match alookup st.graph.nodes nodename with
  | none => st
  | some node =>
    match node.nodeType with
    | NodeType.FILENODE =>
        let node1 := { node with
                         lfn := some nodename
                         ignore := some true
                         data_type := some "science" }
        { st with graph := st.graph.setNode nodename node1 }
    | NodeType.TASKNODE =>
        let taskAbbrev := node.taskAbbrev.getD ""
        let node1 := { node with job_attrib := some [("bps_jobabbrev", taskAbbrev)] }
        let g1 := st.graph.setNode nodename node1
        let taskcnts1 := bumpCount st.taskcnts taskAbbrev
        let n1 := st.ncnt + 1
        let qNodeName := fmt6 n1
        let qlfn := qlfnOf nodename
        let qFileName := osJoin4 cfg.submitPath "input" taskAbbrev qlfn
        let g2 := g1.addNode qNodeName
          { nodeType := NodeType.FILENODE, lfn := some qlfn, label := qlfn,
            pfn := some qFileName, ignore := some false,
            data_type := some "quantum", shape := "box", style := "rounded" }
        let writes1 := st.writes ++ [(qFileName, alookup qgnodes nodename)]
        let node2 := updateTask cfg taskAbbrev node1
        let g3 := g2.setNode nodename node2
        let g4 := g3.addEdge qNodeName nodename
        let st1 : WFState :=
          { st with
              graph := g4
              ncnt := n1
              qcnt := st.qcnt + 1
              taskcnts := taskcnts1
              writes := writes1 }
        if cfg.runInit then
          match alookup st1.init_nodes taskAbbrev with
          | some _ =>
              { st1 with graph := st1.graph.addEdge (st1.sfNodeName.getD "") nodename }
          | none =>
              let taskcnts2 := bumpCount st1.taskcnts taskAbbrev
              let n2 := st1.ncnt + 1
              let stNodeName := fmt6 n2
              let lfnI := taskAbbrev ++ "_init"
              let initNode0 : NodeData :=
                { nodeType := NodeType.TASKNODE, task_def_id := node.task_def_id,
                  taskAbbrev := some taskAbbrev, shape := "box",
                  fillcolor := some "gray",
                  job_attrib := some [("bps_isjob", "True"),
                    ("bps_project", cfg.project), ("bps_campaign", cfg.campaign),
                    ("bps_run", gname), ("bps_operator", cfg.operatorName),
                    ("bps_payload", cfg.payloadName), ("bps_runsite", "TODO"),
                    ("bps_jobabbrev", taskAbbrev)],
                  style := "filled", label := lfnI }
              let initNode1 := updateTask cfg "pipetask_init" initNode0
              let g5 := st1.graph.addNode stNodeName initNode1
              let n3 := n2 + 1
              let sfName := fmt6 n3
              let g6 := g5.addNode sfName
                { nodeType := NodeType.FILENODE, lfn := some lfnI, label := lfnI,
                  ignore := some true, data_type := some lfnI,
                  shape := "box", style := "rounded" }
              let g7 := g6.addEdge stNodeName sfName
              let g8 := g7.addEdge qNodeName stNodeName
              let g9 := g8.addEdge sfName nodename
              { st1 with
                  graph := g9
                  ncnt := n3
                  taskcnts := taskcnts2
                  init_nodes := st1.init_nodes ++ [(taskAbbrev, stNodeName, sfName)]
                  sfNodeName := some sfName }
        else st1

/-- _link_init_nodes: walk consecutive (stripped) pipeline labels and add the
    edge from the init output file node of the previous label to the init task
    node of the current label.  A label without cached init nodes raises
    KeyError in Python (the current label's init task node is read first, then
    the previous label's init output file node), which aborts the workflow
    construction: the embedding returns the offending label as the error and
    adds no further edges. -/
def linkInitAux (cache : List (String × String × String)) (g : DiGraph) :
    List String → Except String DiGraph
  | [] => Except.ok g
  | [_] => Except.ok g
  | a :: b :: rest =>
      match alookup cache b with
      | none => Except.error b
      | some pb =>
          match alookup cache a with
          | none => Except.error a
          | some pa => linkInitAux cache (g.addEdge pa.2 pb.1) (b :: rest)

/-- Result of _createWorkflowGraph: the final builder state plus the run-level
    summary attributes attached to the graph. -/
structure WFResult where
  state : WFState
  gname : String
  gtype : String
  run_attrib : List (String × String)
deriving DecidableEq, Repr

deriving instance DecidableEq for Except

/-- _createWorkflowGraph: copy the science graph, resume the counter at the
    node count, process every node of the snapshot node list, link init nodes
    when runInit is set (a KeyError raised by the linking pass aborts the
    whole construction), and attach the run summary. -/
def createWorkflowGraph (cfg : BpsConfig) (gname : String) (pipeline : List String)
    (qgnodes : List (String × QuantumGraphTaskNodes)) (sciGraph : DiGraph) :
    Except String WFResult :=
  let st0 : WFState :=
    { graph := sciGraph, ncnt := sciGraph.nodes.length, qcnt := 0,
      taskcnts := [], init_nodes := [], sfNodeName := none, writes := [] }
  let nodelist := sciGraph.nodes.map Prod.fst
  let st1 := nodelist.foldl (processWFNode cfg gname qgnodes) st0
  let finish : WFState → WFResult := fun st2 =>
    let runSummary := (pipeline.map pyStrip).map
      (fun ab => ab ++ ":" ++ natStr ((alookup st2.taskcnts ab).getD 0))
    { state := st2, gname := gname, gtype := "workflow",
      run_attrib := [("bps_run_summary", joinSemi runSummary), ("bps_isjob", "True"),
        ("bps_project", cfg.project), ("bps_campaign", cfg.campaign),
        ("bps_run", gname), ("bps_operator", cfg.operatorName),
        ("bps_payload", cfg.payloadName), ("bps_runsite", "TODO")] }
  if cfg.runInit then
    match linkInitAux st1.init_nodes st1.graph (pipeline.map pyStrip) with
    | Except.ok g2 => Except.ok (finish { st1 with graph := g2 })
    | Except.error e => Except.error e
  else Except.ok (finish st1)

/-- The graph-construction pipeline of createSubmission, after the quantum
    graph is available: read (and validate) the plan, build the science graph,
    then build the workflow graph.  A zero-quantum plan fails before either
    graph is built. -/
def runSubmissionCore (cfg : BpsConfig) (gname : String) (qgraph : Plan) :
    Except String (SciState × WFResult) := do
  let qg ← readQuantumGraph qgraph
  let sci := createScienceGraph cfg qg
  let wf ← createWorkflowGraph cfg gname sci.pipeline sci.qgnodes sci.sciGraph
  return (sci, wf)

/-- Placeholder result used only to read a successful construction back out of
    the Except wrapper. -/
def emptyWFResult : WFResult :=
  { state :=
      { graph := { nodes := [], edges := [] }
        ncnt := 0
        qcnt := 0
        taskcnts := []
        init_nodes := []
        sfNodeName := none
        writes := [] }
    gname := ""
    gtype := ""
    run_attrib := [] }

/-- The workflow result of a successful construction (the placeholder is never
    reached at the inputs where this is used, which provably succeed). -/
def wfResultOr (r : Except String WFResult) : WFResult :=
  match r with
  | Except.ok res => res
  | Except.error _ => emptyWFResult

/- ===== Generic workflow container =====
   Modelled from the spec: the module lsst.ctrl.bps.generic_workflow is not
   under src (only its test file is), so GenericWorkflow, GenericWorkflowJob,
   add_job, get_job and the save/load codec registry are modelled from
   section 4.4 of the design document and the behavior pinned down by
   src/tests/test_generic_workflow.py. -/

/-- Error kinds of the generic-workflow container (section 7). -/
inductive GWError where
  | DuplicateJob
  | JobNotFound
  | UnsupportedFormat
deriving DecidableEq, Repr

/-- Modelled from the spec: a job identified by a unique name carrying a
    comparable attribute payload; equality is value equality, never allocation
    identity. -/
structure GenericWorkflowJob where
  name : String
  attrs : List (String × String) := []
deriving DecidableEq, Repr

/-- Modelled from the spec: a named directed graph of jobs. -/
structure GenericWorkflow where
  name : String
  jobs : List GenericWorkflowJob := []
  edges : List (String × String) := []
deriving DecidableEq, Repr

/-- Modelled from the spec: add_job fails with DuplicateJob when a job of that
    name exists, otherwise inserts the job as an isolated node. -/
def GenericWorkflow.add_job (g : GenericWorkflow) (j : GenericWorkflowJob) :
    Except GWError GenericWorkflow :=
  if g.jobs.any (fun j0 => j0.name = j.name) then .error GWError.DuplicateJob
  else .ok { g with jobs := g.jobs ++ [j] }

/-- Modelled from the spec: get_job fails with JobNotFound when absent. -/
def GenericWorkflow.get_job (g : GenericWorkflow) (nm : String) :
    Except GWError GenericWorkflowJob :=
  match g.jobs.find? (fun j => j.name = nm) with
  | some j => .ok j
  | none => .error GWError.JobNotFound

/-- Modelled from the spec: the serialized stream of the default codec, holding
    the full topology, node attribute payloads and graph name. -/
structure GWWire where
  gname : String
  jobRecords : List (String × List (String × String))
  edgeRecords : List (String × String)
deriving DecidableEq, Repr

/-- Modelled from the spec: save dispatches on the format name over the closed
    codec registry (the default codec is named "pickle", as the tests use);
    an unrecognized format fails with UnsupportedFormat. -/
def GenericWorkflow.save (g : GenericWorkflow) (fmt : String) :
    Except GWError GWWire :=
  if fmt = "pickle" then
    .ok { gname := g.name,
          jobRecords := g.jobs.map (fun j => (j.name, j.attrs)),
          edgeRecords := g.edges }
  else .error GWError.UnsupportedFormat

/-- Modelled from the spec: load dispatches on the same registry and rebuilds
    the workflow from the stream. -/
def GenericWorkflow.load (w : GWWire) (fmt : String) :
    Except GWError GenericWorkflow :=
  if fmt = "pickle" then
    .ok { name := w.gname,
          jobs := w.jobRecords.map (fun r => { name := r.1, attrs := r.2 }),
          edges := w.edgeRecords }
  else .error GWError.UnsupportedFormat

/- ===== Derived observations and predicates used by the verification ===== -/

/-- Numeric value of a decimal digit character. -/
def digitVal (c : Char) : Nat := c.toNat - 48

/-- Read a digit string back as a number (leading zeros ignored). -/
def parseDigits (cs : List Char) : Nat := cs.foldl (fun a c => a * 10 + digitVal c) 0

/-- Entry test: file node. -/
def isFileEntry (p : String × NodeData) : Bool := p.2.nodeType = NodeType.FILENODE

/-- Entry test: task node. -/
def isTaskEntry (p : String × NodeData) : Bool := p.2.nodeType = NodeType.TASKNODE

/-- Number of file nodes of a graph. -/
def fileNodeCount (g : DiGraph) : Nat := (g.nodes.filter isFileEntry).length

/-- The task-node entries of a graph in node order. -/
def taskEntries (g : DiGraph) : List (String × NodeData) := g.nodes.filter isTaskEntry

/-- The task label carried by a node entry. -/
def entryLabel (p : String × NodeData) : String := p.2.taskAbbrev.getD ""

/-- The labels of the task nodes of a graph in node order. -/
def taskLabelSeq (g : DiGraph) : List String := (taskEntries g).map entryLabel

/-- All dataset references of a quantum in processing order. -/
def quantumRefs (q : Quantum) : List DatasetRef := q.predictedInputs ++ q.outputs

/-- All dataset references of a plan in processing order. -/
def allRefs (plan : Plan) : List DatasetRef :=
  (plan.map (fun grp => (grp.quanta.map quantumRefs).flatten)).flatten

/-- All dedup keys of a plan in processing order. -/
def allDsNames (plan : Plan) : List String := (allRefs plan).map dsNameOf

/-- The number of distinct dedup keys over the plan. -/
def distinctDsNameCount (plan : Plan) : Nat := (allDsNames plan).dedup.length

/-- Stated from the claim wording, for comparison with the code: the number of
    distinct (dataset-type name, data coordinate) pairs over the plan. -/
def distinctPairCount (plan : Plan) : Nat :=
  ((allRefs plan).map (fun r => (r.datasetTypeName, r.dataId))).dedup.length

/-- The descriptor path written for the job of a task node. -/
def descPath (cfg : BpsConfig) (ab nm : String) : String :=
  osJoin4 cfg.submitPath "input" ab (qlfnOf nm)

/-- First-encounter deduplication helper. -/
def dedupFirstAux (seen : List String) : List String → List String
  | [] => []
  | a :: t => if a ∈ seen then dedupFirstAux seen t
              else a :: dedupFirstAux (seen ++ [a]) t

/-- The ordered list of distinct labels in first-encounter order. -/
def dedupFirst (l : List String) : List String := dedupFirstAux [] l

/-- Collapse adjacent equal labels: the sequence of label runs.  The task
    labels of a node sequence are contiguous per label exactly when this list
    has no duplicate. -/
def blocks : List String → List String
  | [] => []
  | [a] => [a]
  | a :: b :: t => if a = b then blocks (b :: t) else a :: blocks (b :: t)

/-- Loop-variable discipline that makes the cached-init reuse branch of
    _createWorkflowGraph link correctly: every cached label that still occurs
    among the remaining task labels heads the remaining sequence as one run,
    and sfNodeName still holds its init output file node. -/
def RemOK (cache : List (String × String × String)) (sfVar : Option String)
    (rem : List String) : Prop :=
  ∀ e ∈ cache, e.1 ∈ rem →
    sfVar = some e.2.2 ∧ rem.head? = some e.1 ∧
    e.1 ∉ rem.dropWhile (fun x => x = e.1)

/-- Stated from the claim wording: the scheduler attributes extracted from a
    condor item list (entries whose key carries the reserved "+" marker, with
    the marker stripped and the value passed through verbatim). -/
def condorAttribs (items : List (String × String)) : List (String × String) :=
  items.filterMap (fun kv =>
    if strStartsWith kv.1 '+' then some (strDrop1 kv.1, kv.2) else none)

/-- Stated from the claim wording: the profile parameters extracted from a
    condor item list (all entries without the reserved marker). -/
def condorProfile (items : List (String × String)) : List (String × String) :=
  items.filterMap (fun kv =>
    if strStartsWith kv.1 '+' then none else some kv)

/-- Stated from the claim wording: the scheduler attributes the resolution
    should produce for a task. -/
def resolvedAttribs (cfg : BpsConfig) (ab : String) : List (String × String) :=
  condorAttribs ((cfg.siteCondor (cfg.computeSite ab)).getD [])

/-- Stated from the claim wording: the profile parameters the resolution
    should produce for a task, after the optional requestMemory / requestCpus
    values set or override request_memory / request_cpus. -/
def resolvedProfile (cfg : BpsConfig) (ab : String) : List (String × String) :=
  let items := (cfg.siteCondor (cfg.computeSite ab)).getD []
  let prof0 := condorProfile items
  let prof1 := match cfg.requestMemory ab with
    | some v => assocInsert prof0 "request_memory" v
    | none => prof0
  match cfg.requestCpus ab with
  | some v => assocInsert prof1 "request_cpus" v
  | none => prof1

/- ===== Concrete inputs used by counterexamples and witnesses ===== -/

/-- Two references with distinct (type, coordinate) pairs but the same dedup
    key string "a+b+c". -/
def refColl1 : DatasetRef := { datasetTypeName := "a+b", dataId := "c" }

/-- See refColl1. -/
def refColl2 : DatasetRef := { datasetTypeName := "a", dataId := "b+c" }

/-- One-task plan whose two input references collide on the dedup key. -/
def planColl : Plan :=
  [ { taskDef := { label := "t", taskName := "mod.pkg.Cls" },
      quanta := [ { predictedInputs := [refColl1, refColl2], outputs := [],
                    initInputs := [] } ],
      initInputs := [] } ]

/-- Small task definition for hand-built workflow inputs. -/
def smallTaskDef (lbl : String) : TaskDef := { label := lbl, taskName := "m.p.C" }

/-- Science-style task node for hand-built workflow inputs. -/
def smallTaskNode (lbl : String) : NodeData := mkSciTaskNode 0 (smallTaskDef lbl)

/-- A quantum with no references. -/
def emptyQuantum : Quantum := { predictedInputs := [], outputs := [], initInputs := [] }

/-- Quantum store entry for one small task node. -/
def smallQgEntry (nm lbl : String) : String × QuantumGraphTaskNodes :=
  (nm, ⟨smallTaskDef lbl, [emptyQuantum], []⟩)

/-- Hand-built science-style graph whose task nodes carry labels A, B, A: jobs
    of label A are not contiguous. -/
def interGraph : DiGraph :=
  { nodes := [(fmt6 1, smallTaskNode "A"), (fmt6 2, smallTaskNode "B"),
              (fmt6 3, smallTaskNode "A")],
    edges := [] }

/-- Quantum store matching interGraph. -/
def interQgnodes : List (String × QuantumGraphTaskNodes) :=
  [smallQgEntry (fmt6 1) "A", smallQgEntry (fmt6 2) "B", smallQgEntry (fmt6 3) "A"]

/-- Configuration with per-task initialization enabled. -/
def runInitConfig : BpsConfig := { runInit := true }

/-- Workflow construction over the interleaved graph. -/
def interResult : Except String WFResult :=
  createWorkflowGraph runInitConfig "run" ["A", "B"] interQgnodes interGraph

/-- Hand-built science-style graph whose task nodes carry labels A, A, B: jobs
    of each label are contiguous, as in every graph the science builder
    produces. -/
def contigGraph : DiGraph :=
  { nodes := [(fmt6 1, smallTaskNode "A"), (fmt6 2, smallTaskNode "A"),
              (fmt6 3, smallTaskNode "B")],
    edges := [] }

/-- Quantum store matching contigGraph. -/
def contigQgnodes : List (String × QuantumGraphTaskNodes) :=
  [smallQgEntry (fmt6 1) "A", smallQgEntry (fmt6 2) "A", smallQgEntry (fmt6 3) "B"]

/-- Workflow construction over the contiguous graph. -/
def contigResult : Except String WFResult :=
  createWorkflowGraph runInitConfig "run" ["A", "B"] contigQgnodes contigGraph

/-- Configuration carrying a condor profile with one attribute entry and one
    profile entry, plus a requestMemory override. -/
def condorConfig : BpsConfig :=
  { siteCondor := fun _ => some [("+JobAttr", "val"), ("mem", "2048")],
    requestMemory := fun _ => some "4096" }

/-- A job named job1 with no attributes, as in the container tests. -/
def job1 : GenericWorkflowJob := { name := "job1" }

/-- A one-job workflow named mytest, as in the container tests. -/
def gwf1 : GenericWorkflow := { name := "mytest", jobs := [job1] }

/-- A one-group, one-quantum plan with a single input reference. -/
def smallPlan : Plan :=
  [ { taskDef := { label := "t1", taskName := "mod.pkg.Cls" },
      quanta := [ { predictedInputs := [ { datasetTypeName := "raw", dataId := "v1" } ],
                    outputs := [ { datasetTypeName := "calexp", dataId := "v1" } ],
                    initInputs := [] } ],
      initInputs := [] } ]

/-- A two-group plan with distinct labels. -/
def twoLabelPlan : Plan :=
  [ { taskDef := { label := "t1", taskName := "mod.pkg.Cls" },
      quanta := [emptyQuantum], initInputs := [] },
    { taskDef := { label := "t2", taskName := "mod.pkg.Other" },
      quanta := [emptyQuantum], initInputs := [] } ]

/- ===== Invariants carried through the two graph constructions ===== -/

/-- Invariant of the science-graph builder state: node names are exactly the
    counter values 1..ncnt rendered through fmt6 in discovery order; the file
    nodes correspond one to one (in order) with the dedup map; the task nodes
    correspond one to one (in order) with the quantum store, each holding a
    single quantum; and the counters agree with the map sizes. -/
structure SciInv (st : SciState) : Prop where
  names : st.sciGraph.nodes.map Prod.fst = (List.range' 1 st.ncnt).map fmt6
  files : st.sciGraph.nodes.filter isFileEntry =
    st.mapId.map (fun p => (fmt6 p.2, mkSciFileNode p.1))
  tasks : List.Forall₂ (fun (nd : String × NodeData) (e : String × QuantumGraphTaskNodes) =>
    nd.1 = e.1 ∧ nd.2.nodeType = NodeType.TASKNODE ∧
    nd.2.taskAbbrev = some e.2.taskDef.label ∧ ∃ q, e.2.quanta = [q])
    (st.sciGraph.nodes.filter isTaskEntry) st.qgnodes
  dcount : st.dcnt = st.mapId.length
  ncount : st.ncnt = st.tcnt + st.dcnt
  keysNodup : (st.mapId.map Prod.fst).Nodup

/-- The labels of the task entries of an entry list, in order. -/
def labelsOfEntries (l : List (String × NodeData)) : List String :=
  (l.filter isTaskEntry).map entryLabel

/-- Invariant of the workflow-graph augmentation loop over the snapshot node
    list of the input graph g0.  procTasks are the task entries of g0 already
    processed (with their original attributes); rem is the label sequence of
    the task entries still to process.  The graph keeps the counter discipline
    (names are fmt6 of 1..ncnt in order), the original discriminating
    attributes of the input nodes survive, one descriptor write and descriptor
    file node with its edge exist per processed task, and with runInit the
    init cache holds exactly one (task node, output file node) pair per
    processed label, every processed job has the edge from the init output
    file node of its own label, and the loop variable sfNodeName obeys the
    RemOK discipline over the remaining labels. -/
structure WFInv (cfg : BpsConfig) (qgnodes : List (String × QuantumGraphTaskNodes))
    (g0 : DiGraph) (procTasks : List (String × NodeData)) (rem : List String)
    (st : WFState) : Prop where
  names : st.graph.nodes.map Prod.fst = (List.range' 1 st.ncnt).map fmt6
  lower : g0.nodes.length ≤ st.ncnt
  orig : ∀ p ∈ g0.nodes, ∃ nd, alookup st.graph.nodes p.1 = some nd ∧
    nd.nodeType = p.2.nodeType ∧ nd.taskAbbrev = p.2.taskAbbrev ∧
    nd.task_def_id = p.2.task_def_id
  writes : st.writes = procTasks.map (fun p =>
    (descPath cfg (entryLabel p) p.1, alookup qgnodes p.1))
  qcount : st.qcnt = procTasks.length
  ncount : st.ncnt = g0.nodes.length + st.qcnt + 2 * st.init_nodes.length
  descs : ∀ p ∈ procTasks, ∃ k qd, g0.nodes.length < k ∧ k ≤ st.ncnt ∧
    alookup st.graph.nodes (fmt6 k) = some qd ∧
    qd.nodeType = NodeType.FILENODE ∧
    qd.pfn = some (descPath cfg (entryLabel p) p.1) ∧
    qd.lfn = some (qlfnOf p.1) ∧ qd.ignore = some false ∧
    qd.data_type = some "quantum" ∧ (fmt6 k, p.1) ∈ st.graph.edges
  cacheNodup : (st.init_nodes.map (fun e => e.1)).Nodup
  cacheKeys : ∀ L, L ∈ st.init_nodes.map (fun e => e.1) ↔
    (cfg.runInit = true ∧ L ∈ procTasks.map entryLabel)
  cacheNodes : ∀ e ∈ st.init_nodes, ∃ k1 k2 d1 d2,
    e.2.1 = fmt6 k1 ∧ e.2.2 = fmt6 k2 ∧
    g0.nodes.length < k1 ∧ k1 ≤ st.ncnt ∧ g0.nodes.length < k2 ∧ k2 ≤ st.ncnt ∧
    alookup st.graph.nodes e.2.1 = some d1 ∧ d1.nodeType = NodeType.TASKNODE ∧
    d1.taskAbbrev = some e.1 ∧ d1.label = e.1 ++ "_init" ∧
    alookup st.graph.nodes e.2.2 = some d2 ∧ d2.nodeType = NodeType.FILENODE ∧
    d2.lfn = some (e.1 ++ "_init") ∧
    (e.2.1, e.2.2) ∈ st.graph.edges
  initEdges : cfg.runInit = true → ∀ p ∈ procTasks, ∃ stN sfN,
    alookup st.init_nodes (entryLabel p) = some (stN, sfN) ∧
    (sfN, p.1) ∈ st.graph.edges
  remOK : cfg.runInit = true → RemOK st.init_nodes st.sfNodeName rem
  remBlocks : (blocks rem).Nodup

/-- The descriptor file-node attributes created for a task node. -/
def qDescNode (cfg : BpsConfig) (ab nm : String) : NodeData :=
  { nodeType := NodeType.FILENODE, lfn := some (qlfnOf nm), label := qlfnOf nm,
    pfn := some (descPath cfg ab nm), ignore := some false,
    data_type := some "quantum", shape := "box", style := "rounded" }

/-- The init task-node attributes before executable resolution. -/
def initTaskNode0 (cfg : BpsConfig) (gname ab : String) (tdid : Option Nat) : NodeData :=
  { nodeType := NodeType.TASKNODE, task_def_id := tdid, taskAbbrev := some ab,
    shape := "box", fillcolor := some "gray",
    job_attrib := some [("bps_isjob", "True"), ("bps_project", cfg.project),
      ("bps_campaign", cfg.campaign), ("bps_run", gname),
      ("bps_operator", cfg.operatorName), ("bps_payload", cfg.payloadName),
      ("bps_runsite", "TODO"), ("bps_jobabbrev", ab)],
    style := "filled", label := ab ++ "_init" }

/-- The init output file-node attributes. -/
def initFileNode (ab : String) : NodeData :=
  { nodeType := NodeType.FILENODE, lfn := some (ab ++ "_init"),
    label := ab ++ "_init", ignore := some true, data_type := some (ab ++ "_init"),
    shape := "box", style := "rounded" }

/-- The common part of the TASKNODE branch of processWFNode (node metadata,
    descriptor node, write record, descriptor edge), named for the proofs. -/
def taskStepCore (cfg : BpsConfig) (qgnodes : List (String × QuantumGraphTaskNodes))
    (st : WFState) (nm : String) (nd' : NodeData) : WFState :=
  let ab := nd'.taskAbbrev.getD ""
  let node1 : NodeData := { nd' with job_attrib := some [("bps_jobabbrev", ab)] }
  let node2 := updateTask cfg ab node1
  let qn := fmt6 (st.ncnt + 1)
  { st with
      graph := (((st.graph.setNode nm node1).addNode qn
        (qDescNode cfg ab nm)).setNode nm node2).addEdge qn nm
      ncnt := st.ncnt + 1
      qcnt := st.qcnt + 1
      taskcnts := bumpCount st.taskcnts ab
      writes := st.writes ++ [(descPath cfg ab nm, alookup qgnodes nm)] }

/-- The TASKNODE branch of processWFNode when the init nodes of the label are
    created, named for the proofs. -/
def taskStepInit (cfg : BpsConfig) (gname : String)
    (qgnodes : List (String × QuantumGraphTaskNodes)) (st : WFState)
    (nm : String) (nd' : NodeData) : WFState :=
  let ab := nd'.taskAbbrev.getD ""
  let core := taskStepCore cfg qgnodes st nm nd'
  let qn := fmt6 (st.ncnt + 1)
  let stN := fmt6 (st.ncnt + 2)
  let sfN := fmt6 (st.ncnt + 3)
  { core with
      graph := ((((core.graph.addNode stN
          (updateTask cfg "pipetask_init"
            (initTaskNode0 cfg gname ab nd'.task_def_id))).addNode
          sfN (initFileNode ab)).addEdge stN sfN).addEdge qn stN).addEdge sfN nm
      ncnt := st.ncnt + 3
      taskcnts := bumpCount (bumpCount st.taskcnts ab) ab
      init_nodes := st.init_nodes ++ [(ab, stN, sfN)]
      sfNodeName := some sfN }

/-- The builder state after the augmentation fold of _createWorkflowGraph,
    before the init-node linking pass, named for the proofs. -/
def wfFoldState (cfg : BpsConfig) (gname : String)
    (qgnodes : List (String × QuantumGraphTaskNodes)) (g0 : DiGraph) : WFState :=
  (g0.nodes.map Prod.fst).foldl (processWFNode cfg gname qgnodes)
    { graph := g0, ncnt := g0.nodes.length, qcnt := 0, taskcnts := [],
      init_nodes := [], sfNodeName := none, writes := [] }

/-- Whether a quantum-store lookup produced an entry holding exactly one unit
    of work. -/
def singletonEntry (o : Option QuantumGraphTaskNodes) : Bool :=
  match o with
  | some e => e.quanta.length == 1
  | none => false

/- ===== Properties of the identifier rendering ===== -/

theorem natDigitsAux_stable (n : Nat) : ∀ f1 f2, n < f1 → n < f2 →
    natDigitsAux f1 n = natDigitsAux f2 n := by
  induction n using Nat.strong_induction_on with
  | _ n ih =>
    intro f1 f2 h1 h2
    cases f1 with
    | zero => omega
    | succ a =>
      cases f2 with
      | zero => omega
      | succ b =>
        by_cases h10 : n < 10
        · simp [natDigitsAux, h10]
        · simp only [natDigitsAux, if_neg h10]
          have hdiv : n / 10 < n := Nat.div_lt_self (by omega) (by omega)
          rw [ih (n / 10) hdiv a b (by omega) (by omega)]

theorem natDigits_lt10 {n : Nat} (h : n < 10) : natDigits n = [digitChar n] := by
  simp [natDigits, natDigitsAux, h]

theorem natDigits_ge10 {n : Nat} (h : 10 ≤ n) :
    natDigits n = natDigits (n / 10) ++ [digitChar (n % 10)] := by
  have h1 : natDigits n = natDigitsAux n (n / 10) ++ [digitChar (n % 10)] := by
    simp [natDigits, natDigitsAux, Nat.not_lt.mpr h]
  rw [h1, natDigitsAux_stable (n / 10) n (n / 10 + 1)
    (Nat.lt_of_lt_of_le (Nat.div_lt_self (by omega) (by omega)) (by omega)) (by omega)]
  rfl

theorem digitVal_digitChar {d : Nat} (h : d < 10) : digitVal (digitChar d) = d := by
  interval_cases d <;> decide

theorem parse_natDigits (n : Nat) : ∀ a : Nat,
    List.foldl (fun a c => a * 10 + digitVal c) a (natDigits n) =
    a * 10 ^ (natDigits n).length + n := by
  induction n using Nat.strong_induction_on with
  | _ n ih =>
    intro a
    by_cases h10 : n < 10
    · rw [natDigits_lt10 h10]
      simp [List.foldl, digitVal_digitChar h10]
    · have h : 10 ≤ n := by omega
      have hdiv : n / 10 < n := Nat.div_lt_self (by omega) (by omega)
      rw [natDigits_ge10 h, List.foldl_append, ih (n / 10) hdiv a]
      simp only [List.foldl, List.length_append, List.length_cons, List.length_nil]
      rw [digitVal_digitChar (Nat.mod_lt n (by omega))]
      have hmod : 10 * (n / 10) + n % 10 = n := Nat.div_add_mod n 10
      rw [pow_succ]
      calc (a * 10 ^ (natDigits (n / 10)).length + n / 10) * 10 + n % 10
          = a * (10 ^ (natDigits (n / 10)).length * 10) + (10 * (n / 10) + n % 10) := by
            ring
        _ = a * (10 ^ (natDigits (n / 10)).length * 10) + n := by rw [hmod]

theorem parse_zeros (k : Nat) (ds : List Char) :
    List.foldl (fun a c => a * 10 + digitVal c) 0 (List.replicate k '0' ++ ds) =
    List.foldl (fun a c => a * 10 + digitVal c) 0 ds := by
  induction k with
  | zero => simp
  | succ k ih =>
    have h0 : (0 : Nat) * 10 + digitVal '0' = 0 := by decide
    simp only [List.replicate_succ, List.cons_append, List.foldl_cons, h0]
    exact ih

theorem parseDigits_fmt6 (n : Nat) : parseDigits (fmt6 n).data = n := by
  show parseDigits (List.replicate (6 - (natDigits n).length) '0' ++ natDigits n) = n
  unfold parseDigits
  rw [parse_zeros, parse_natDigits]
  simp

theorem fmt6_injective : Function.Injective fmt6 := by
  intro a b h
  have h2 := congrArg (fun s => parseDigits s.data) h
  simpa [parseDigits_fmt6] using h2

theorem natDigits_length_le : ∀ k, 1 ≤ k → ∀ n, n < 10 ^ k →
    (natDigits n).length ≤ k := by
  intro k
  induction k with
  | zero => intro h; omega
  | succ k ih =>
    intro _ n hn
    by_cases h10 : n < 10
    · rw [natDigits_lt10 h10]
      simp
    · have hk : 1 ≤ k := by
        by_contra hk0
        have hz : k = 0 := by omega
        subst hz
        rw [pow_one] at hn
        omega
      rw [natDigits_ge10 (by omega)]
      simp only [List.length_append, List.length_cons, List.length_nil]
      have hlt : n / 10 < 10 ^ k := by
        rw [Nat.div_lt_iff_lt_mul (by omega)]
        calc n < 10 ^ (k + 1) := hn
          _ = 10 ^ k * 10 := by rw [pow_succ]
      have hle := ih hk (n / 10) hlt
      omega

theorem fmt6_length {n : Nat} (h : n < 1000000) : (fmt6 n).length = 6 := by
  have h6 : n < 10 ^ 6 := by norm_num at h ⊢; omega
  have hle : (natDigits n).length ≤ 6 := natDigits_length_le 6 (by omega) n h6
  show (List.replicate (6 - (natDigits n).length) '0' ++ natDigits n).length = 6
  simp only [List.length_append, List.length_replicate]
  omega

/- ===== Association-list and graph-operation lemmas ===== -/

theorem alookup_nil {α : Type} (k : String) : alookup ([] : List (String × α)) k = none := rfl

theorem alookup_cons {α : Type} (p : String × α) (t : List (String × α)) (k : String) :
    alookup (p :: t) k = if p.1 = k then some p.2 else alookup t k := by
  by_cases h : p.1 = k <;> simp [alookup, List.find?, h]

theorem alookup_mem {α : Type} {l : List (String × α)} {k : String} {v : α}
    (h : alookup l k = some v) : (k, v) ∈ l := by
  induction l with
  | nil => simp [alookup_nil] at h
  | cons p t ih =>
    rw [alookup_cons] at h
    by_cases hp : p.1 = k
    · rw [if_pos hp] at h
      have hpv : p = (k, v) := by
        cases p
        simp only [Option.some_inj] at h
        simp_all
      rw [← hpv]
      exact List.mem_cons_self p t
    · rw [if_neg hp] at h
      exact List.mem_cons_of_mem p (ih h)

theorem alookup_eq_none {α : Type} {l : List (String × α)} {k : String} :
    alookup l k = none ↔ k ∉ l.map Prod.fst := by
  induction l with
  | nil => simp [alookup_nil]
  | cons p t ih =>
    rw [alookup_cons]
    by_cases h : p.1 = k
    · simp [h]
    · simp only [if_neg h, ih, List.map_cons, List.mem_cons]
      constructor
      · intro hk hor
        rcases hor with h1 | h2
        · exact h h1.symm
        · exact hk h2
      · intro hk hmem
        exact hk (Or.inr hmem)

theorem alookup_append {α : Type} (l1 l2 : List (String × α)) (k : String) :
    alookup (l1 ++ l2) k = (alookup l1 k).or (alookup l2 k) := by
  unfold alookup
  rw [List.find?_append]
  cases l1.find? (fun p => p.1 = k) <;> simp

theorem alookup_append_left {α : Type} {l1 : List (String × α)} {k : String} {v : α}
    (l2 : List (String × α)) (h : alookup l1 k = some v) :
    alookup (l1 ++ l2) k = some v := by
  rw [alookup_append, h]
  rfl

theorem alookup_append_right {α : Type} {l1 : List (String × α)} {k : String}
    (l2 : List (String × α)) (h : alookup l1 k = none) :
    alookup (l1 ++ l2) k = alookup l2 k := by
  rw [alookup_append, h]
  cases alookup l2 k <;> rfl

theorem map_replace_fst {α : Type} (l : List (String × α)) (k : String) (d : α) :
    (l.map (fun p => if p.1 = k then (k, d) else p)).map Prod.fst = l.map Prod.fst := by
  rw [List.map_map]
  apply List.map_congr_left
  intro p _
  by_cases h : p.1 = k <;> simp [h]

theorem map_replace_self {α : Type} {l : List (String × α)} {k : String} {d : α}
    (hmem : (k, d) ∈ l) (hnd : (l.map Prod.fst).Nodup) :
    l.map (fun p => if p.1 = k then (k, d) else p) = l := by
  induction l with
  | nil => simp
  | cons p t ih =>
    simp only [List.map_cons, List.nodup_cons] at hnd ⊢
    rcases List.mem_cons.mp hmem with heq | hmem2
    · have hk : p.1 = k := by rw [← heq]
      have hnot : ∀ q ∈ t, q.1 ≠ k := by
        intro q hq hqk
        apply hnd.1
        rw [hk]
        exact List.mem_map.mpr ⟨q, hq, hqk⟩
      have ht : t.map (fun p => if p.1 = k then (k, d) else p) = t := by
        have h1 : t.map (fun p => if p.1 = k then (k, d) else p) = t.map id :=
          List.map_congr_left (fun q hq => by rw [if_neg (hnot q hq)]; rfl)
        rw [h1, List.map_id]
      simp only [List.map_cons, if_pos hk, ht]
      rw [heq]
    · have hkt : k ∈ t.map Prod.fst := by
        simp only [List.mem_map]
        exact ⟨(k, d), hmem2, rfl⟩
      have hpk : p.1 ≠ k := by
        intro hh
        rw [hh] at hnd
        exact hnd.1 hkt
      rw [if_neg hpk, ih hmem2 hnd.2]

theorem alookup_map_replace_ne {α : Type} (l : List (String × α)) (k k2 : String) (d : α)
    (hne : k2 ≠ k) :
    alookup (l.map (fun p => if p.1 = k then (k, d) else p)) k2 = alookup l k2 := by
  induction l with
  | nil => rfl
  | cons p t ih =>
    by_cases h : p.1 = k
    · simp only [List.map_cons, if_pos h]
      rw [alookup_cons, alookup_cons, if_neg (fun hh => hne hh.symm), if_neg]
      · exact ih
      · rw [h]
        exact fun hh => hne hh.symm
    · simp only [List.map_cons, if_neg h]
      rw [alookup_cons, alookup_cons]
      by_cases h2 : p.1 = k2
      · rw [if_pos h2, if_pos h2]
      · rw [if_neg h2, if_neg h2]
        exact ih

theorem alookup_map_replace_self {α : Type} (l : List (String × α)) (k : String) (d : α)
    (hk : k ∈ l.map Prod.fst) :
    alookup (l.map (fun p => if p.1 = k then (k, d) else p)) k = some d := by
  induction l with
  | nil => simp at hk
  | cons p t ih =>
    by_cases h : p.1 = k
    · simp only [List.map_cons, if_pos h]
      rw [alookup_cons, if_pos rfl]
    · simp only [List.map_cons, if_neg h]
      rw [alookup_cons, if_neg h]
      apply ih
      simp only [List.map_cons, List.mem_cons] at hk
      rcases hk with h1 | h2
      · exact absurd h1.symm h
      · exact h2

theorem addNode_fresh {g : DiGraph} {name : String} {d : NodeData}
    (h : name ∉ g.nodes.map Prod.fst) :
    (g.addNode name d).nodes = g.nodes ++ [(name, d)] ∧
    (g.addNode name d).edges = g.edges := by
  unfold DiGraph.addNode
  rw [if_neg h]
  exact ⟨rfl, rfl⟩

theorem addNode_present {g : DiGraph} {name : String} {d : NodeData}
    (hmem : (name, d) ∈ g.nodes) (hnd : (g.nodes.map Prod.fst).Nodup) :
    g.addNode name d = g := by
  unfold DiGraph.addNode
  rw [if_pos (List.mem_map.mpr ⟨(name, d), hmem, rfl⟩)]
  have hrep := map_replace_self hmem hnd
  cases g
  simp_all

theorem addEdge_nodes (g : DiGraph) (u v : String) :
    (g.addEdge u v).nodes = g.nodes := by
  unfold DiGraph.addEdge
  split <;> rfl

theorem addEdge_mem (g : DiGraph) (u v : String) :
    (u, v) ∈ (g.addEdge u v).edges := by
  unfold DiGraph.addEdge
  split
  · assumption
  · simp

theorem addEdge_mono {g : DiGraph} {e : String × String} (u v : String)
    (h : e ∈ g.edges) : e ∈ (g.addEdge u v).edges := by
  unfold DiGraph.addEdge
  split
  · exact h
  · simp [h]

theorem setNode_fst (g : DiGraph) (name : String) (d : NodeData) :
    (g.setNode name d).nodes.map Prod.fst = g.nodes.map Prod.fst :=
  map_replace_fst g.nodes name d

theorem setNode_edges (g : DiGraph) (name : String) (d : NodeData) :
    (g.setNode name d).edges = g.edges := rfl

theorem setNode_lookup_ne (g : DiGraph) {name k : String} (d : NodeData)
    (hne : k ≠ name) :
    alookup (g.setNode name d).nodes k = alookup g.nodes k :=
  alookup_map_replace_ne g.nodes name k d hne

theorem setNode_lookup_self (g : DiGraph) {name : String} (d : NodeData)
    (h : name ∈ g.nodes.map Prod.fst) :
    alookup (g.setNode name d).nodes name = some d :=
  alookup_map_replace_self g.nodes name d h

theorem foldl_inv {α σ : Type} {P : σ → Prop} {f : σ → α → σ}
    (h : ∀ s a, P s → P (f s a)) : ∀ (l : List α) (s : σ), P s → P (l.foldl f s) := by
  intro l
  induction l with
  | nil => intro s hs; exact hs
  | cons a t ih =>
    intro s hs
    exact ih (f s a) (h s a hs)

/- ===== Science-graph construction: invariant preservation ===== -/

theorem names_nodup_of_range {g : DiGraph} {n : Nat}
    (h : g.nodes.map Prod.fst = (List.range' 1 n).map fmt6) :
    (g.nodes.map Prod.fst).Nodup := by
  rw [h]
  exact List.Nodup.map fmt6_injective (List.nodup_range' 1 n)

theorem fmt6_fresh {g : DiGraph} {n : Nat}
    (h : g.nodes.map Prod.fst = (List.range' 1 n).map fmt6) {m : Nat} (hm : n < m) :
    fmt6 m ∉ g.nodes.map Prod.fst := by
  rw [h]
  intro hmem
  rcases List.mem_map.mp hmem with ⟨k, hk, heq⟩
  have hk2 := List.mem_range'_1.mp hk
  have hkm := fmt6_injective heq
  omega

theorem range_map_concat (n : Nat) :
    (List.range' 1 (n + 1)).map fmt6 = (List.range' 1 n).map fmt6 ++ [fmt6 (n + 1)] := by
  rw [List.range'_concat]
  simp only [List.map_append, List.map_cons, List.map_nil]
  have h : 1 + 1 * n = n + 1 := by omega
  rw [h]

theorem isFileEntry_mkFile (nm dsName : String) :
    isFileEntry (nm, mkSciFileNode dsName) = true := by
  simp [isFileEntry, mkSciFileNode]

theorem isTaskEntry_mkFile (nm dsName : String) :
    isTaskEntry (nm, mkSciFileNode dsName) = false := by
  simp [isTaskEntry, mkSciFileNode]

theorem isFileEntry_mkTask (nm : String) (i : Nat) (td : TaskDef) :
    isFileEntry (nm, mkSciTaskNode i td) = false := by
  simp [isFileEntry, mkSciTaskNode]

theorem isTaskEntry_mkTask (nm : String) (i : Nat) (td : TaskDef) :
    isTaskEntry (nm, mkSciTaskNode i td) = true := by
  simp [isTaskEntry, mkSciTaskNode]

theorem processDsRef_seen {st : SciState} {r : DatasetRef} {v : Nat}
    (isInput : Bool) (tn : String) (h : alookup st.mapId (dsNameOf r) = some v) :
    processDsRef isInput tn st r = { st with sciGraph :=
      if isInput then
        (st.sciGraph.addNode (fmt6 v) (mkSciFileNode (dsNameOf r))).addEdge (fmt6 v) tn
      else
        (st.sciGraph.addNode (fmt6 v) (mkSciFileNode (dsNameOf r))).addEdge tn (fmt6 v) } := by
  simp only [processDsRef, h]

theorem processDsRef_new {st : SciState} {r : DatasetRef}
    (isInput : Bool) (tn : String) (h : alookup st.mapId (dsNameOf r) = none) :
    processDsRef isInput tn st r = { st with
      sciGraph :=
        if isInput then
          (st.sciGraph.addNode (fmt6 (st.ncnt + 1)) (mkSciFileNode (dsNameOf r))).addEdge
            (fmt6 (st.ncnt + 1)) tn
        else
          (st.sciGraph.addNode (fmt6 (st.ncnt + 1)) (mkSciFileNode (dsNameOf r))).addEdge
            tn (fmt6 (st.ncnt + 1))
      ncnt := st.ncnt + 1
      dcnt := st.dcnt + 1
      mapId := st.mapId ++ [(dsNameOf r, st.ncnt + 1)] } := by
  simp only [processDsRef, h]

theorem sciInv_processDsRef (isInput : Bool) (tn : String) (st : SciState)
    (r : DatasetRef) (h : SciInv st) : SciInv (processDsRef isInput tn st r) := by
  cases hl : alookup st.mapId (dsNameOf r) with
  | some v =>
    rw [processDsRef_seen isInput tn hl]
    have hmem : (dsNameOf r, v) ∈ st.mapId := alookup_mem hl
    have hnode : (fmt6 v, mkSciFileNode (dsNameOf r)) ∈ st.sciGraph.nodes := by
      have hf : (fmt6 v, mkSciFileNode (dsNameOf r)) ∈ st.sciGraph.nodes.filter isFileEntry := by
        rw [h.files]
        exact List.mem_map.mpr ⟨(dsNameOf r, v), hmem, rfl⟩
      exact List.mem_of_mem_filter hf
    have hnd : (st.sciGraph.nodes.map Prod.fst).Nodup := names_nodup_of_range h.names
    have haddn : st.sciGraph.addNode (fmt6 v) (mkSciFileNode (dsNameOf r)) = st.sciGraph :=
      addNode_present hnode hnd
    rw [haddn]
    have hnodes : (if isInput then st.sciGraph.addEdge (fmt6 v) tn
        else st.sciGraph.addEdge tn (fmt6 v)).nodes = st.sciGraph.nodes := by
      cases isInput <;> simp [addEdge_nodes]
    exact { names := by rw [hnodes]; exact h.names
            files := by rw [hnodes]; exact h.files
            tasks := by rw [hnodes]; exact h.tasks
            dcount := h.dcount
            ncount := h.ncount
            keysNodup := h.keysNodup }
  | none =>
    rw [processDsRef_new isInput tn hl]
    have hfresh : fmt6 (st.ncnt + 1) ∉ st.sciGraph.nodes.map Prod.fst :=
      fmt6_fresh h.names (by omega)
    have hadd := addNode_fresh (d := mkSciFileNode (dsNameOf r)) hfresh
    have hnodes : (if isInput then
        (st.sciGraph.addNode (fmt6 (st.ncnt + 1)) (mkSciFileNode (dsNameOf r))).addEdge
          (fmt6 (st.ncnt + 1)) tn
      else
        (st.sciGraph.addNode (fmt6 (st.ncnt + 1)) (mkSciFileNode (dsNameOf r))).addEdge
          tn (fmt6 (st.ncnt + 1))).nodes =
        st.sciGraph.nodes ++ [(fmt6 (st.ncnt + 1), mkSciFileNode (dsNameOf r))] := by
      cases isInput <;> simp [addEdge_nodes, hadd.1]
    have hkeyout : dsNameOf r ∉ st.mapId.map Prod.fst := alookup_eq_none.mp hl
    exact
      { names := by
          rw [hnodes, List.map_append, h.names, range_map_concat]
          rfl
        files := by
          rw [hnodes, List.filter_append, h.files]
          simp only [List.filter, isFileEntry_mkFile]
          rw [List.map_append]
          rfl
        tasks := by
          rw [hnodes, List.filter_append]
          simp only [List.filter, isTaskEntry_mkFile]
          simpa using h.tasks
        dcount := by
          show st.dcnt + 1 = (st.mapId ++ [(dsNameOf r, st.ncnt + 1)]).length
          simp only [List.length_append, List.length_cons, List.length_nil]
          rw [h.dcount]
        ncount := by
          show st.ncnt + 1 = st.tcnt + (st.dcnt + 1)
          have hc := h.ncount
          omega
        keysNodup := by
          rw [List.map_append]
          simp only [List.map_cons, List.map_nil]
          rw [List.nodup_append]
          refine ⟨h.keysNodup, List.nodup_singleton _, ?_⟩
          intro s hs hsing
          simp only [List.mem_cons, List.not_mem_nil, or_false] at hsing
          rw [hsing] at hs
          exact hkeyout hs }

theorem sciInv_taskAdd (taskId : Nat) (td : TaskDef) (q : Quantum) {st : SciState}
    (h : SciInv st) :
    SciInv { st with
      ncnt := st.ncnt + 1
      tcnt := st.tcnt + 1
      sciGraph := st.sciGraph.addNode (fmt6 (st.ncnt + 1)) (mkSciTaskNode taskId td)
      qgnodes := st.qgnodes ++ [(fmt6 (st.ncnt + 1), ⟨td, [q], q.initInputs⟩)] } := by
  have hfresh : fmt6 (st.ncnt + 1) ∉ st.sciGraph.nodes.map Prod.fst :=
    fmt6_fresh h.names (by omega)
  have hadd := addNode_fresh (d := mkSciTaskNode taskId td) hfresh
  exact
    { names := by
        rw [hadd.1, List.map_append, h.names, range_map_concat]
        rfl
      files := by
        rw [hadd.1, List.filter_append]
        simp only [List.filter, isFileEntry_mkTask]
        simpa using h.files
      tasks := by
        rw [hadd.1, List.filter_append]
        simp only [List.filter, isTaskEntry_mkTask]
        refine List.rel_append h.tasks ?_
        refine List.forall₂_cons.mpr ⟨?_, List.Forall₂.nil⟩
        exact ⟨rfl, rfl, rfl, ⟨q, rfl⟩⟩
      dcount := h.dcount
      ncount := by
        show st.ncnt + 1 = (st.tcnt + 1) + st.dcnt
        have hc := h.ncount
        omega
      keysNodup := h.keysNodup }

theorem sciInv_processQuantum (taskId : Nat) (td : TaskDef) (st : SciState) (q : Quantum)
    (h : SciInv st) : SciInv (processQuantum taskId td st q) := by
  unfold processQuantum
  apply foldl_inv (fun s a hs => sciInv_processDsRef false (fmt6 (st.ncnt + 1)) s a hs)
  apply foldl_inv (fun s a hs => sciInv_processDsRef true (fmt6 (st.ncnt + 1)) s a hs)
  exact sciInv_taskAdd taskId td q h

theorem sciInv_processTaskGroup (taskId : Nat) (st : SciState) (grp : QuantumGraphTaskNodes)
    (h : SciInv st) : SciInv (processTaskGroup taskId st grp) := by
  unfold processTaskGroup
  apply foldl_inv (fun s a hs => sciInv_processQuantum taskId grp.taskDef s a hs)
  exact { names := h.names, files := h.files, tasks := h.tasks,
          dcount := h.dcount, ncount := h.ncount, keysNodup := h.keysNodup }

theorem sciInv_processGroups : ∀ (plan : Plan) (i : Nat) (st : SciState),
    SciInv st → SciInv (processGroups i st plan) := by
  intro plan
  induction plan with
  | nil => intro i st h; exact h
  | cons grp rest ih =>
    intro i st h
    exact ih (i + 1) (processTaskGroup i st grp) (sciInv_processTaskGroup i st grp h)

theorem sciInv_init : SciInv initSciState := by
  refine { names := rfl, files := rfl, tasks := List.Forall₂.nil,
           dcount := rfl, ncount := rfl, keysNodup := List.nodup_nil }

theorem sciInv_createScienceGraph (cfg : BpsConfig) (plan : Plan) :
    SciInv (createScienceGraph cfg plan) := by
  unfold createScienceGraph
  have h := sciInv_processGroups plan 0 initSciState sciInv_init
  cases cfg.pipelineOverride <;>
    exact { names := h.names, files := h.files, tasks := h.tasks,
            dcount := h.dcount, ncount := h.ncount, keysNodup := h.keysNodup }

/- ===== Pipeline and dedup-key bookkeeping ===== -/

theorem pipeline_processDsRef (b : Bool) (tn : String) (st : SciState) (r : DatasetRef) :
    (processDsRef b tn st r).pipeline = st.pipeline := by
  cases h : alookup st.mapId (dsNameOf r) with
  | none => rw [processDsRef_new b tn h]
  | some v => rw [processDsRef_seen b tn h]

theorem pipeline_foldDs (b : Bool) (tn : String) :
    ∀ (rs : List DatasetRef) (st : SciState),
    (rs.foldl (processDsRef b tn) st).pipeline = st.pipeline := by
  intro rs
  induction rs with
  | nil => intro st; rfl
  | cons r t ih =>
    intro st
    rw [List.foldl_cons, ih, pipeline_processDsRef]

theorem pipeline_processQuantum (i : Nat) (td : TaskDef) (st : SciState) (q : Quantum) :
    (processQuantum i td st q).pipeline = st.pipeline := by
  unfold processQuantum
  dsimp only
  rw [pipeline_foldDs, pipeline_foldDs]

theorem pipeline_foldQuanta (i : Nat) (td : TaskDef) :
    ∀ (qs : List Quantum) (st : SciState),
    (qs.foldl (processQuantum i td) st).pipeline = st.pipeline := by
  intro qs
  induction qs with
  | nil => intro st; rfl
  | cons q t ih =>
    intro st
    rw [List.foldl_cons, ih, pipeline_processQuantum]

theorem pipeline_processTaskGroup (i : Nat) (st : SciState) (grp : QuantumGraphTaskNodes) :
    (processTaskGroup i st grp).pipeline = st.pipeline ++ [grp.taskDef.label] := by
  unfold processTaskGroup
  dsimp only
  rw [pipeline_foldQuanta]

theorem pipeline_processGroups : ∀ (plan : Plan) (i : Nat) (st : SciState),
    (processGroups i st plan).pipeline =
      st.pipeline ++ plan.map (fun g => g.taskDef.label) := by
  intro plan
  induction plan with
  | nil => intro i st; simp [processGroups]
  | cons grp rest ih =>
    intro i st
    show (processGroups (i + 1) (processTaskGroup i st grp) rest).pipeline = _
    rw [ih, pipeline_processTaskGroup]
    simp

theorem mem_mapId_processDsRef (b : Bool) (tn : String) (st : SciState) (r : DatasetRef)
    (s : String) :
    s ∈ (processDsRef b tn st r).mapId.map Prod.fst ↔
    s ∈ st.mapId.map Prod.fst ∨ s = dsNameOf r := by
  cases h : alookup st.mapId (dsNameOf r) with
  | none =>
    rw [processDsRef_new b tn h]
    dsimp only
    simp
  | some v =>
    rw [processDsRef_seen b tn h]
    dsimp only
    have hmem : dsNameOf r ∈ st.mapId.map Prod.fst :=
      List.mem_map.mpr ⟨(dsNameOf r, v), alookup_mem h, rfl⟩
    constructor
    · exact Or.inl
    · rintro (h1 | h1)
      · exact h1
      · rw [h1]
        exact hmem

theorem mem_mapId_foldDs (b : Bool) (tn : String) :
    ∀ (rs : List DatasetRef) (st : SciState) (s : String),
    s ∈ ((rs.foldl (processDsRef b tn) st).mapId.map Prod.fst) ↔
    s ∈ st.mapId.map Prod.fst ∨ s ∈ rs.map dsNameOf := by
  intro rs
  induction rs with
  | nil => intro st s; simp
  | cons r t ih =>
    intro st s
    rw [List.foldl_cons, ih, mem_mapId_processDsRef]
    simp only [List.map_cons, List.mem_cons]
    tauto

theorem mem_mapId_processQuantum (i : Nat) (td : TaskDef) (st : SciState) (q : Quantum)
    (s : String) :
    s ∈ (processQuantum i td st q).mapId.map Prod.fst ↔
    s ∈ st.mapId.map Prod.fst ∨ s ∈ (quantumRefs q).map dsNameOf := by
  unfold processQuantum
  rw [mem_mapId_foldDs, mem_mapId_foldDs]
  dsimp only
  simp only [quantumRefs, List.map_append, List.mem_append]
  tauto

theorem mem_mapId_foldQuanta (i : Nat) (td : TaskDef) :
    ∀ (qs : List Quantum) (st : SciState) (s : String),
    s ∈ ((qs.foldl (processQuantum i td) st).mapId.map Prod.fst) ↔
    s ∈ st.mapId.map Prod.fst ∨ ∃ q ∈ qs, s ∈ (quantumRefs q).map dsNameOf := by
  intro qs
  induction qs with
  | nil => intro st s; simp
  | cons q t ih =>
    intro st s
    rw [List.foldl_cons, ih, mem_mapId_processQuantum]
    constructor
    · rintro ((h1 | h1) | ⟨q2, hq2, hs⟩)
      · exact Or.inl h1
      · exact Or.inr ⟨q, List.mem_cons_self q t, h1⟩
      · exact Or.inr ⟨q2, List.mem_cons_of_mem q hq2, hs⟩
    · rintro (h1 | ⟨q2, hq2, hs⟩)
      · exact Or.inl (Or.inl h1)
      · rcases List.mem_cons.mp hq2 with rfl | hq3
        · exact Or.inl (Or.inr hs)
        · exact Or.inr ⟨q2, hq3, hs⟩

theorem mem_mapId_processGroups : ∀ (plan : Plan) (i : Nat) (st : SciState) (s : String),
    s ∈ (processGroups i st plan).mapId.map Prod.fst ↔
    s ∈ st.mapId.map Prod.fst ∨
      ∃ grp ∈ plan, ∃ q ∈ grp.quanta, s ∈ (quantumRefs q).map dsNameOf := by
  intro plan
  induction plan with
  | nil => intro i st s; simp [processGroups]
  | cons grp rest ih =>
    intro i st s
    show s ∈ (processGroups (i + 1) (processTaskGroup i st grp) rest).mapId.map Prod.fst ↔ _
    rw [ih]
    unfold processTaskGroup
    rw [mem_mapId_foldQuanta]
    dsimp only
    constructor
    · rintro ((h1 | ⟨q, hq, hs⟩) | ⟨g2, hg2, q, hq, hs⟩)
      · exact Or.inl h1
      · exact Or.inr ⟨grp, List.mem_cons_self grp rest, q, hq, hs⟩
      · exact Or.inr ⟨g2, List.mem_cons_of_mem grp hg2, q, hq, hs⟩
    · rintro (h1 | ⟨g2, hg2, q, hq, hs⟩)
      · exact Or.inl (Or.inl h1)
      · rcases List.mem_cons.mp hg2 with rfl | hg3
        · exact Or.inl (Or.inr ⟨q, hq, hs⟩)
        · exact Or.inr ⟨g2, hg3, q, hq, hs⟩

theorem mem_allDsNames (plan : Plan) (s : String) :
    s ∈ allDsNames plan ↔
    ∃ grp ∈ plan, ∃ q ∈ grp.quanta, s ∈ (quantumRefs q).map dsNameOf := by
  unfold allDsNames
  constructor
  · intro hs0
    rcases List.mem_map.mp hs0 with ⟨r, hr, rfl⟩
    rcases List.mem_flatten.mp hr with ⟨block, hblock, hrb⟩
    rcases List.mem_map.mp hblock with ⟨grp, hgrp, rfl⟩
    rcases List.mem_flatten.mp hrb with ⟨qrefs, hqrefs, hrq⟩
    rcases List.mem_map.mp hqrefs with ⟨q, hq, rfl⟩
    exact ⟨grp, hgrp, q, hq, List.mem_map.mpr ⟨r, hrq, rfl⟩⟩
  · rintro ⟨grp, hgrp, q, hq, hs⟩
    rcases List.mem_map.mp hs with ⟨r, hr, rfl⟩
    apply List.mem_map.mpr
    refine ⟨r, ?_, rfl⟩
    apply List.mem_flatten.mpr
    refine ⟨(grp.quanta.map quantumRefs).flatten, List.mem_map.mpr ⟨grp, hgrp, rfl⟩, ?_⟩
    exact List.mem_flatten.mpr ⟨quantumRefs q, List.mem_map.mpr ⟨q, hq, rfl⟩, hr⟩

theorem mem_mapId_created (cfg : BpsConfig) (plan : Plan) (s : String) :
    s ∈ (createScienceGraph cfg plan).mapId.map Prod.fst ↔ s ∈ allDsNames plan := by
  unfold createScienceGraph
  have h := mem_mapId_processGroups plan 0 initSciState s
  rw [mem_allDsNames]
  cases cfg.pipelineOverride <;>
  · dsimp only
    rw [h]
    simp [initSciState]

theorem length_eq_dedup_of_mem_iff {l1 l2 : List String} (hnd : l1.Nodup)
    (hm : ∀ s, s ∈ l1 ↔ s ∈ l2) : l1.length = l2.dedup.length := by
  have h1 : l1.toFinset = l2.toFinset := by
    ext s
    simp only [List.mem_toFinset]
    exact hm s
  calc l1.length = l1.toFinset.card := (List.toFinset_card_of_nodup hnd).symm
    _ = l2.toFinset.card := by rw [h1]
    _ = l2.dedup.length := List.card_toFinset l2

theorem fileNodeCount_eq_mapId (st : SciState) (h : SciInv st) :
    fileNodeCount st.sciGraph = st.mapId.length := by
  unfold fileNodeCount
  rw [h.files, List.length_map]

theorem dedupFirstAux_eq_self : ∀ (l seen : List String), l.Nodup →
    (∀ a ∈ l, a ∉ seen) → dedupFirstAux seen l = l := by
  intro l
  induction l with
  | nil => intro seen _ _; rfl
  | cons a t ih =>
    intro seen hnd hdis
    unfold dedupFirstAux
    rw [if_neg (hdis a (List.mem_cons_self a t))]
    congr 1
    apply ih
    · exact (List.nodup_cons.mp hnd).2
    · intro b hb hbs
      rcases List.mem_append.mp hbs with h1 | h1
      · exact hdis b (List.mem_cons_of_mem a hb) h1
      · simp only [List.mem_cons, List.not_mem_nil, or_false] at h1
        rw [h1] at hb
        exact (List.nodup_cons.mp hnd).1 hb

theorem dedupFirst_eq_self {l : List String} (h : l.Nodup) : dedupFirst l = l :=
  dedupFirstAux_eq_self l [] h (fun a _ => List.not_mem_nil a)

/- ===== Claims about the science-graph builder ===== -/

/-- C1 counterexample: the references refColl1 and refColl2 have distinct
    (dataset-type name, data coordinate) pairs, yet science-graph construction
    over planColl produces a single file node, because both pairs render to
    the dedup key string "a+b+c"; so the file-node count 1 differs from the
    distinct-pair count 2 and the claim fails as stated. -/
theorem C1_distinct_pair_counterexample :
    fileNodeCount (createScienceGraph {} planColl).sciGraph = 1 ∧
    distinctPairCount planColl = 2 ∧
    fileNodeCount (createScienceGraph {} planColl).sciGraph ≠ distinctPairCount planColl := by
  refine ⟨?_, ?_, ?_⟩ <;> decide

/-- C1 amended: for every plan, the number of file nodes equals the number of
    distinct dedup key strings (dataset-type name ++ "+" ++ coordinate) across
    all units, and two references with equal (type, coordinate) pairs (whose
    keys therefore coincide) are mapped to the same node identifier entry of
    the dedup map. -/
theorem C1_dedup_invariant_amended (cfg : BpsConfig) (plan : Plan) :
    fileNodeCount (createScienceGraph cfg plan).sciGraph = distinctDsNameCount plan ∧
    (∀ r1 r2 : DatasetRef, r1.datasetTypeName = r2.datasetTypeName →
      r1.dataId = r2.dataId →
      alookup (createScienceGraph cfg plan).mapId (dsNameOf r1) =
      alookup (createScienceGraph cfg plan).mapId (dsNameOf r2)) := by
  constructor
  · have hinv := sciInv_createScienceGraph cfg plan
    rw [fileNodeCount_eq_mapId _ hinv]
    have hlen : (createScienceGraph cfg plan).mapId.length =
        ((createScienceGraph cfg plan).mapId.map Prod.fst).length :=
      (List.length_map _ _).symm
    rw [hlen]
    exact length_eq_dedup_of_mem_iff hinv.keysNodup (mem_mapId_created cfg plan)
  · intro r1 r2 h1 h2
    have hds : dsNameOf r1 = dsNameOf r2 := by
      unfold dsNameOf
      rw [h1, h2]
    rw [hds]

/-- C1 amended witness: concrete instantiation at smallPlan and a pair of
    equal references. -/
theorem C1_dedup_invariant_amended_witness :
    fileNodeCount (createScienceGraph {} smallPlan).sciGraph = distinctDsNameCount smallPlan ∧
    alookup (createScienceGraph {} smallPlan).mapId
      (dsNameOf { datasetTypeName := "raw", dataId := "v1" }) =
    alookup (createScienceGraph {} smallPlan).mapId
      (dsNameOf { datasetTypeName := "raw", dataId := "v1" }) :=
  ⟨(C1_dedup_invariant_amended {} smallPlan).1,
   (C1_dedup_invariant_amended {} smallPlan).2
     { datasetTypeName := "raw", dataId := "v1" }
     { datasetTypeName := "raw", dataId := "v1" } rfl rfl⟩

/-- C3: node identifiers come from the one shared counter: in discovery order
    the node names are exactly fmt6 of 1..ncnt, so each newly created node
    advances the counter by exactly one; within the documented six-digit
    capacity every identifier is the counter value as a fixed-width
    zero-padded decimal string; and a reference whose dedup key was already
    seen reuses the previously assigned identifier (the added edge uses fmt6
    of the stored counter value) without advancing the counter or the map. -/
theorem C3_counter_discipline (cfg : BpsConfig) (plan : Plan) :
    ((createScienceGraph cfg plan).sciGraph.nodes.map Prod.fst =
      (List.range' 1 (createScienceGraph cfg plan).ncnt).map fmt6) ∧
    (∀ n : Nat, n ≤ 999999 → (fmt6 n).length = 6) ∧
    (∀ (st : SciState) (r : DatasetRef) (tn : String) (v : Nat),
      alookup st.mapId (dsNameOf r) = some v →
      (processDsRef true tn st r).ncnt = st.ncnt ∧
      (processDsRef true tn st r).mapId = st.mapId ∧
      (fmt6 v, tn) ∈ (processDsRef true tn st r).sciGraph.edges) := by
  refine ⟨(sciInv_createScienceGraph cfg plan).names, ?_, ?_⟩
  · intro n hn
    exact fmt6_length (by omega)
  · intro st r tn v h
    rw [processDsRef_seen true tn h]
    refine ⟨rfl, rfl, ?_⟩
    show (fmt6 v, tn) ∈
      ((st.sciGraph.addNode (fmt6 v) (mkSciFileNode (dsNameOf r))).addEdge (fmt6 v) tn).edges
    exact addEdge_mem _ _ _

/-- C3 witness: concrete instantiation. -/
theorem C3_counter_discipline_witness :
    ((createScienceGraph {} smallPlan).sciGraph.nodes.map Prod.fst =
      (List.range' 1 (createScienceGraph {} smallPlan).ncnt).map fmt6) ∧
    (fmt6 42).length = 6 ∧
    (processDsRef true (fmt6 1) (createScienceGraph {} planColl) refColl1).ncnt =
      (createScienceGraph {} planColl).ncnt :=
  ⟨(C3_counter_discipline {} smallPlan).1,
   (C3_counter_discipline {} smallPlan).2.1 42 (by decide),
   ((C3_counter_discipline {} planColl).2.2 (createScienceGraph {} planColl) refColl1
     (fmt6 1) 2 (by decide)).1⟩

/-- C5: a plan whose total quantum count is zero fails with the empty-plan
    error before any science or workflow graph is built, and a plan with at
    least one quantum is returned by the reader unchanged. -/
theorem C5_empty_plan_rejection (cfg : BpsConfig) (gname : String) (plan : Plan) :
    (countQuantum plan = 0 →
      readQuantumGraph plan = Except.error "QuantumGraph is empty" ∧
      runSubmissionCore cfg gname plan = Except.error "QuantumGraph is empty") ∧
    (countQuantum plan ≠ 0 → readQuantumGraph plan = Except.ok plan) := by
  constructor
  · intro h
    have hr : readQuantumGraph plan = Except.error "QuantumGraph is empty" := by
      unfold readQuantumGraph
      rw [if_pos h]
    refine ⟨hr, ?_⟩
    unfold runSubmissionCore
    rw [hr]
    rfl
  · intro h
    unfold readQuantumGraph
    rw [if_neg h]

/-- C5 witness: the empty plan is rejected and a one-quantum plan accepted. -/
theorem C5_empty_plan_rejection_witness :
    readQuantumGraph ([] : Plan) = Except.error "QuantumGraph is empty" ∧
    readQuantumGraph smallPlan = Except.ok smallPlan :=
  ⟨((C5_empty_plan_rejection {} "g" []).1 (by decide)).1,
   (C5_empty_plan_rejection {} "g" smallPlan).2 (by decide)⟩

/-- C7: the builder derives the pipeline order as the ordered list of distinct
    task labels encountered over the task groups (group labels are unique per
    the data model), and an explicit configured order wins over the derived
    one. -/
theorem C7_pipeline_derivation (cfg : BpsConfig) (plan : Plan) :
    (∀ s, cfg.pipelineOverride = some s →
      (createScienceGraph cfg plan).pipeline = splitComma s) ∧
    (cfg.pipelineOverride = none →
      (plan.map (fun g => g.taskDef.label)).Nodup →
      (createScienceGraph cfg plan).pipeline =
        dedupFirst (plan.map (fun g => g.taskDef.label))) := by
  constructor
  · intro s hs
    unfold createScienceGraph
    rw [hs]
  · intro hn hnd
    unfold createScienceGraph
    rw [hn]
    dsimp only
    rw [pipeline_processGroups, dedupFirst_eq_self hnd]
    show ([] : List String) ++ _ = _
    simp

/-- C7 witness: explicit order wins on twoLabelPlan; without an override the
    derived order is the distinct label list. -/
theorem C7_pipeline_derivation_witness :
    (createScienceGraph { pipelineOverride := some "x,y" } twoLabelPlan).pipeline =
      splitComma "x,y" ∧
    (createScienceGraph {} twoLabelPlan).pipeline =
      dedupFirst (twoLabelPlan.map (fun g => g.taskDef.label)) :=
  ⟨(C7_pipeline_derivation { pipelineOverride := some "x,y" } twoLabelPlan).1 "x,y" rfl,
   (C7_pipeline_derivation {} twoLabelPlan).2 rfl (by decide)⟩

/- ===== Resource resolution (_updateTask) ===== -/

theorem assocInsert_fresh {m : List (String × String)} {k : String} (v : String)
    (h : k ∉ m.map Prod.fst) : assocInsert m k v = m ++ [(k, v)] := by
  unfold assocInsert
  rw [if_neg h]

theorem alookup_assocInsert_self (m : List (String × String)) (k v : String) :
    alookup (assocInsert m k v) k = some v := by
  unfold assocInsert
  split
  · exact alookup_map_replace_self m k v (by assumption)
  · rename_i h
    rw [alookup_append_right _ (alookup_eq_none.mpr h), alookup_cons]
    simp

theorem alookup_assocInsert_ne (m : List (String × String)) (k v : String)
    {k2 : String} (h : k2 ≠ k) :
    alookup (assocInsert m k v) k2 = alookup m k2 := by
  unfold assocInsert
  split
  · exact alookup_map_replace_ne m k k2 v h
  · rw [alookup_append]
    have h1 : alookup [(k, v)] k2 = none := by
      rw [alookup_cons, if_neg (fun hh => h hh.symm)]
      rfl
    rw [h1]
    cases alookup m k2 <;> rfl

theorem strDrop1_inj : ∀ {a b : String}, strStartsWith a '+' = true →
    strStartsWith b '+' = true → strDrop1 a = strDrop1 b → a = b := by
  intro a b ha hb h
  obtain ⟨da⟩ := a
  obtain ⟨db⟩ := b
  cases da with
  | nil => simp [strStartsWith] at ha
  | cons ca ta =>
    cases db with
    | nil => simp [strStartsWith] at hb
    | cons cb tb =>
      simp only [strStartsWith, decide_eq_true_eq] at ha hb
      have h2 : ta = tb := congrArg String.data h
      rw [ha, hb, h2]

theorem condorAttribs_cons_pos {kv : String × String} (t : List (String × String))
    (h : strStartsWith kv.1 '+' = true) :
    condorAttribs (kv :: t) = (strDrop1 kv.1, kv.2) :: condorAttribs t := by
  simp [condorAttribs, List.filterMap_cons, h]

theorem condorAttribs_cons_neg {kv : String × String} (t : List (String × String))
    (h : strStartsWith kv.1 '+' = false) :
    condorAttribs (kv :: t) = condorAttribs t := by
  simp [condorAttribs, List.filterMap_cons, h]

theorem condorProfile_cons_pos {kv : String × String} (t : List (String × String))
    (h : strStartsWith kv.1 '+' = true) :
    condorProfile (kv :: t) = condorProfile t := by
  simp [condorProfile, List.filterMap_cons, h]

theorem condorProfile_cons_neg {kv : String × String} (t : List (String × String))
    (h : strStartsWith kv.1 '+' = false) :
    condorProfile (kv :: t) = kv :: condorProfile t := by
  simp [condorProfile, List.filterMap_cons, h]

theorem condor_fold : ∀ (items ja jp : List (String × String)),
    ((items.map Prod.fst).Nodup) →
    (∀ kv ∈ items, strStartsWith kv.1 '+' = true → strDrop1 kv.1 ∉ ja.map Prod.fst) →
    (∀ kv ∈ items, strStartsWith kv.1 '+' = false → kv.1 ∉ jp.map Prod.fst) →
    items.foldl (fun (m : List (String × String) × List (String × String)) kv =>
        if strStartsWith kv.1 '+' then (assocInsert m.1 (strDrop1 kv.1) kv.2, m.2)
        else (m.1, assocInsert m.2 kv.1 kv.2)) (ja, jp) =
      (ja ++ condorAttribs items, jp ++ condorProfile items) := by
  intro items
  induction items with
  | nil =>
    intro ja jp _ _ _
    simp [condorAttribs, condorProfile]
  | cons kv t ih =>
    intro ja jp hnd hja hjp
    have hndt : (t.map Prod.fst).Nodup := (List.nodup_cons.mp hnd).2
    have hhead : kv.1 ∉ t.map Prod.fst := (List.nodup_cons.mp hnd).1
    rw [List.foldl_cons]
    by_cases hp : strStartsWith kv.1 '+' = true
    · rw [if_pos hp]
      dsimp only
      rw [assocInsert_fresh kv.2 (hja kv (List.mem_cons_self kv t) hp)]
      rw [ih (ja ++ [(strDrop1 kv.1, kv.2)]) jp hndt ?ha ?hb]
      · rw [condorAttribs_cons_pos t hp, condorProfile_cons_pos t hp]
        simp
      case ha =>
        intro kv2 hkv2 hp2
        rw [List.map_append]
        intro hmem
        rcases List.mem_append.mp hmem with h1 | h1
        · exact hja kv2 (List.mem_cons_of_mem kv hkv2) hp2 h1
        · simp only [List.map_cons, List.map_nil, List.mem_cons, List.not_mem_nil,
            or_false] at h1
          have heq : kv2.1 = kv.1 := strDrop1_inj hp2 hp h1
          apply hhead
          rw [← heq]
          exact List.mem_map.mpr ⟨kv2, hkv2, rfl⟩
      case hb =>
        intro kv2 hkv2 hp2
        exact hjp kv2 (List.mem_cons_of_mem kv hkv2) hp2
    · have hpf : strStartsWith kv.1 '+' = false := by
        cases hval : strStartsWith kv.1 '+'
        · rfl
        · exact absurd hval hp
      rw [if_neg (by rw [hpf]; exact Bool.false_ne_true)]
      dsimp only
      rw [assocInsert_fresh kv.2 (hjp kv (List.mem_cons_self kv t) hpf)]
      rw [ih ja (jp ++ [(kv.1, kv.2)]) hndt ?ha ?hb]
      · rw [condorAttribs_cons_neg t hpf, condorProfile_cons_neg t hpf]
        simp
      case ha =>
        intro kv2 hkv2 hp2
        exact hja kv2 (List.mem_cons_of_mem kv hkv2) hp2
      case hb =>
        intro kv2 hkv2 hp2
        rw [List.map_append]
        intro hmem
        rcases List.mem_append.mp hmem with h1 | h1
        · exact hjp kv2 (List.mem_cons_of_mem kv hkv2) hp2 h1
        · simp only [List.map_cons, List.map_nil, List.mem_cons, List.not_mem_nil,
            or_false] at h1
          apply hhead
          rw [← h1]
          exact List.mem_map.mpr ⟨kv2, hkv2, rfl⟩

theorem updateTask_spec (cfg : BpsConfig) (ab : String) (tnode : NodeData)
    (hnd : (((cfg.siteCondor (cfg.computeSite ab)).getD []).map Prod.fst).Nodup) :
    updateTask cfg ab tnode = { tnode with
      exec_name := some (cfg.runQuantumExec ab)
      exec_args := some (cfg.runQuantumArgs ab)
      jobProfile := if (resolvedProfile cfg ab).length > 0 then some (resolvedProfile cfg ab)
        else tnode.jobProfile
      jobAttribs := if (resolvedAttribs cfg ab).length > 0 then some (resolvedAttribs cfg ab)
        else tnode.jobAttribs } := by
  have hfold := condor_fold ((cfg.siteCondor (cfg.computeSite ab)).getD []) [] [] hnd
    (fun kv _ _ => List.not_mem_nil _) (fun kv _ _ => List.not_mem_nil _)
  unfold updateTask
  dsimp only
  rw [hfold]
  unfold resolvedProfile resolvedAttribs
  dsimp only
  simp only [List.nil_append]

/-- C6: for every task node, resource resolution maps each condor entry whose
    key starts with the reserved "+" character to a scheduler attribute (the
    marker stripped from the key, the value passed through verbatim) and every
    other entry to a profile parameter; the optional requestMemory and
    requestCpus configuration values, when found, set or override the
    request_memory and request_cpus profile parameters; and the resulting
    profile and attribute maps are attached to the node only when non-empty
    (the node fields are untouched otherwise). -/
theorem C6_resource_resolution (cfg : BpsConfig) (ab : String) (tnode : NodeData)
    (hnd : (((cfg.siteCondor (cfg.computeSite ab)).getD []).map Prod.fst).Nodup) :
    ((updateTask cfg ab tnode).jobAttribs =
      if (resolvedAttribs cfg ab).length > 0 then some (resolvedAttribs cfg ab)
      else tnode.jobAttribs) ∧
    ((updateTask cfg ab tnode).jobProfile =
      if (resolvedProfile cfg ab).length > 0 then some (resolvedProfile cfg ab)
      else tnode.jobProfile) ∧
    (∀ v, cfg.requestMemory ab = some v →
      alookup (resolvedProfile cfg ab) "request_memory" = some v) ∧
    (∀ v, cfg.requestCpus ab = some v →
      alookup (resolvedProfile cfg ab) "request_cpus" = some v) ∧
    (cfg.requestMemory ab = none →
      alookup (resolvedProfile cfg ab) "request_memory" =
        alookup (condorProfile ((cfg.siteCondor (cfg.computeSite ab)).getD []))
          "request_memory") := by
  have hspec := updateTask_spec cfg ab tnode hnd
  refine ⟨by rw [hspec], by rw [hspec], ?_, ?_, ?_⟩
  · intro v hv
    unfold resolvedProfile
    dsimp only
    rw [hv]
    cases hc : cfg.requestCpus ab with
    | none => exact alookup_assocInsert_self _ _ _
    | some w =>
      rw [alookup_assocInsert_ne _ _ _ (by decide)]
      exact alookup_assocInsert_self _ _ _
  · intro v hv
    unfold resolvedProfile
    dsimp only
    rw [hv]
    exact alookup_assocInsert_self _ _ _
  · intro hm
    unfold resolvedProfile
    dsimp only
    rw [hm]
    cases hc : cfg.requestCpus ab with
    | none => rfl
    | some w => rw [alookup_assocInsert_ne _ _ _ (by decide)]

/-- C6 witness: concrete resolution with one marked and one unmarked condor
    entry plus a requestMemory override. -/
theorem C6_resource_resolution_witness :
    ((updateTask condorConfig "t" { nodeType := NodeType.TASKNODE }).jobAttribs =
      if (resolvedAttribs condorConfig "t").length > 0 then
        some (resolvedAttribs condorConfig "t")
      else ({ nodeType := NodeType.TASKNODE } : NodeData).jobAttribs) ∧
    alookup (resolvedProfile condorConfig "t") "request_memory" = some "4096" :=
  ⟨(C6_resource_resolution condorConfig "t" { nodeType := NodeType.TASKNODE }
      (by decide)).1,
   (C6_resource_resolution condorConfig "t" { nodeType := NodeType.TASKNODE }
      (by decide)).2.2.1 "4096" rfl⟩

/- ===== Generic workflow container claims (spec-modelled) ===== -/

/-- C9: add_job fails with DuplicateJob when a job of the same name is already
    present (the operation produces no workflow, so the caller keeps the old
    value unchanged: same jobs, edges and attributes); when the name is fresh
    the job is inserted as an isolated node, appended to the jobs with the
    edges and name untouched. -/
theorem C9_add_job_duplicate (g : GenericWorkflow) (j : GenericWorkflowJob) :
    ((∃ j0 ∈ g.jobs, j0.name = j.name) →
      GenericWorkflow.add_job g j = Except.error GWError.DuplicateJob) ∧
    ((∀ j0 ∈ g.jobs, j0.name ≠ j.name) →
      GenericWorkflow.add_job g j = Except.ok { g with jobs := g.jobs ++ [j] }) := by
  constructor
  · rintro ⟨j0, hj0, hname⟩
    unfold GenericWorkflow.add_job
    rw [if_pos]
    exact List.any_eq_true.mpr ⟨j0, hj0, by simp [hname]⟩
  · intro hfresh
    unfold GenericWorkflow.add_job
    rw [if_neg]
    intro hany
    rcases List.any_eq_true.mp hany with ⟨j0, hj0, hname⟩
    exact hfresh j0 hj0 (by simpa using hname)

/-- C9 witness: re-adding job1 to gwf1 fails with DuplicateJob, while a fresh
    name is inserted as an isolated node. -/
theorem C9_add_job_duplicate_witness :
    GenericWorkflow.add_job gwf1 job1 = Except.error GWError.DuplicateJob ∧
    GenericWorkflow.add_job gwf1 { name := "job2" } =
      Except.ok { gwf1 with jobs := gwf1.jobs ++ [{ name := "job2" }] } :=
  ⟨(C9_add_job_duplicate gwf1 job1).1 ⟨job1, by decide, rfl⟩,
   (C9_add_job_duplicate gwf1 { name := "job2" }).2 (by decide)⟩

theorem gw_map_eta : ∀ (l : List GenericWorkflowJob),
    l.map (fun j => ({ name := j.name, attrs := j.attrs } : GenericWorkflowJob)) = l := by
  intro l
  induction l with
  | nil => rfl
  | cons a t ih => rw [List.map_cons, ih]

/-- C8: saving a workflow with the default codec and loading the saved stream
    reconstructs the workflow exactly, hence a workflow isomorphic to the
    original when matched on job identity plus attribute payload; saving with
    a format name outside the codec registry fails with UnsupportedFormat. -/
theorem C8_save_load_roundtrip (g : GenericWorkflow) :
    ((GenericWorkflow.save g "pickle").bind
      (fun w => GenericWorkflow.load w "pickle") = Except.ok g) ∧
    (∀ fmt, fmt ≠ "pickle" →
      GenericWorkflow.save g fmt = Except.error GWError.UnsupportedFormat) := by
  constructor
  · have h1 : GenericWorkflow.save g "pickle" = Except.ok
        { gname := g.name, jobRecords := g.jobs.map (fun j => (j.name, j.attrs)),
          edgeRecords := g.edges } := by
      unfold GenericWorkflow.save
      rw [if_pos rfl]
    rw [h1]
    show GenericWorkflow.load
      { gname := g.name, jobRecords := g.jobs.map (fun j => (j.name, j.attrs)),
        edgeRecords := g.edges } "pickle" = Except.ok g
    unfold GenericWorkflow.load
    rw [if_pos rfl]
    cases g with
    | mk nm jobs edges =>
      simp only [List.map_map]
      have h2 := gw_map_eta jobs
      have h3 : jobs.map ((fun (r : String × List (String × String)) =>
          ({ name := r.1, attrs := r.2 } : GenericWorkflowJob)) ∘
          (fun j => (j.name, j.attrs))) = jobs := h2
      rw [h3]
  · intro fmt h
    unfold GenericWorkflow.save
    rw [if_neg h]

/-- C8 witness: the round trip at gwf1 and the rejection of a format outside
    the registry. -/
theorem C8_save_load_roundtrip_witness :
    ((GenericWorkflow.save gwf1 "pickle").bind
      (fun w => GenericWorkflow.load w "pickle") = Except.ok gwf1) ∧
    GenericWorkflow.save gwf1 "badformat" = Except.error GWError.UnsupportedFormat :=
  ⟨(C8_save_load_roundtrip gwf1).1,
   (C8_save_load_roundtrip gwf1).2 "badformat" (by decide)⟩

/- ===== Workflow-graph augmentation: helper lemmas ===== -/

theorem nodup_key_unique {α : Type} : ∀ {l : List (String × α)},
    (l.map Prod.fst).Nodup → ∀ {k : String} {a b : α},
    (k, a) ∈ l → (k, b) ∈ l → a = b := by
  intro l
  induction l with
  | nil =>
    intro _ k a b ha
    simp at ha
  | cons p t ih =>
    intro hnd k a b ha hb
    simp only [List.map_cons, List.nodup_cons] at hnd
    have hkt : ∀ c : α, (k, c) ∈ t → k ∈ t.map Prod.fst :=
      fun c hc => List.mem_map.mpr ⟨(k, c), hc, rfl⟩
    rcases List.mem_cons.mp ha with h1 | h1
    · rcases List.mem_cons.mp hb with h2 | h2
      · exact congrArg Prod.snd (h1.trans h2.symm)
      · exfalso
        rw [← h1] at hnd
        exact hnd.1 (hkt b h2)
    · rcases List.mem_cons.mp hb with h2 | h2
      · exfalso
        rw [← h2] at hnd
        exact hnd.1 (hkt a h1)
      · exact ih hnd.2 h1 h2

theorem alookup_snoc_self {α : Type} {l : List (String × α)} {k : String} (v : α)
    (h : k ∉ l.map Prod.fst) : alookup (l ++ [(k, v)]) k = some v := by
  rw [alookup_append_right _ (alookup_eq_none.mpr h), alookup_cons, if_pos rfl]

theorem alookup_mem_names {α : Type} {l : List (String × α)} {k : String} {v : α}
    (h : alookup l k = some v) : k ∈ l.map Prod.fst :=
  List.mem_map.mpr ⟨(k, v), alookup_mem h, rfl⟩

theorem alookup_of_mem_nodup {α : Type} : ∀ {l : List (String × α)},
    (l.map Prod.fst).Nodup → ∀ {p : String × α}, p ∈ l → alookup l p.1 = some p.2 := by
  intro l
  induction l with
  | nil =>
    intro _ p hp
    simp at hp
  | cons q t ih =>
    intro hnd p hp
    simp only [List.map_cons, List.nodup_cons] at hnd
    rw [alookup_cons]
    rcases List.mem_cons.mp hp with h1 | h1
    · rw [← h1]
      rw [if_pos rfl]
    · by_cases hq : q.1 = p.1
      · exfalso
        apply hnd.1
        rw [hq]
        exact List.mem_map.mpr ⟨p, h1, rfl⟩
      · rw [if_neg hq]
        exact ih hnd.2 h1

theorem mem_blocks : ∀ (l : List String) (a : String), a ∈ blocks l ↔ a ∈ l := by
  intro l
  induction l with
  | nil => intro a; simp [blocks]
  | cons b t ih =>
    intro a
    cases t with
    | nil => simp [blocks]
    | cons c t2 =>
      by_cases h : b = c
      · rw [show blocks (b :: c :: t2) = blocks (c :: t2) by
          simp only [blocks, if_pos h]]
        rw [ih a]
        subst h
        simp
      · rw [show blocks (b :: c :: t2) = b :: blocks (c :: t2) by
          simp only [blocks, if_neg h]]
        simp only [List.mem_cons, ih a]

theorem blocks_nodup_tail : ∀ {a : String} {l : List String},
    (blocks (a :: l)).Nodup → (blocks l).Nodup := by
  intro a l h
  cases l with
  | nil => simp [blocks]
  | cons b t =>
    by_cases hab : a = b
    · rw [show blocks (a :: b :: t) = blocks (b :: t) by
        simp only [blocks, if_pos hab]] at h
      exact h
    · rw [show blocks (a :: b :: t) = a :: blocks (b :: t) by
        simp only [blocks, if_neg hab]] at h
      exact (List.nodup_cons.mp h).2

theorem blocks_head_mem : ∀ {a : String} {l : List String},
    (blocks (a :: l)).Nodup → a ∈ l → l.head? = some a := by
  intro a l h hmem
  cases l with
  | nil => simp at hmem
  | cons b t =>
    by_cases hab : a = b
    · rw [hab]
      rfl
    · exfalso
      rw [show blocks (a :: b :: t) = a :: blocks (b :: t) by
        simp only [blocks, if_neg hab]] at h
      exact (List.nodup_cons.mp h).1 ((mem_blocks (b :: t) a).mpr hmem)

theorem blocks_dropWhile : ∀ (l : List String) (a : String),
    (blocks (a :: l)).Nodup → a ∉ (a :: l).dropWhile (fun x => x = a) := by
  intro l
  induction l with
  | nil =>
    intro a _
    simp [List.dropWhile]
  | cons b t ih =>
    intro a h
    have hstep : (a :: b :: t).dropWhile (fun x => x = a) =
        (b :: t).dropWhile (fun x => x = a) := by
      simp [List.dropWhile]
    rw [hstep]
    by_cases hab : a = b
    · rw [show blocks (a :: b :: t) = blocks (b :: t) by
        simp only [blocks, if_pos hab]] at h
      subst hab
      exact (by simpa [List.dropWhile] using ih a h)
    · have hdrop : (b :: t).dropWhile (fun x => x = a) = b :: t := by
        rw [List.dropWhile]
        simp [show b ≠ a from fun hh => hab hh.symm]
      rw [hdrop]
      rw [show blocks (a :: b :: t) = a :: blocks (b :: t) by
        simp only [blocks, if_neg hab]] at h
      intro hmem
      exact (List.nodup_cons.mp h).1 ((mem_blocks (b :: t) a).mpr hmem)

theorem head_of_not_dropWhile {a : String} {l : List String}
    (hmem : a ∈ l) (hnd : a ∉ l.dropWhile (fun x => x = a)) : l.head? = some a := by
  cases l with
  | nil => simp at hmem
  | cons b t =>
    by_cases hab : b = a
    · rw [hab]
      rfl
    · exfalso
      have hdrop : (b :: t).dropWhile (fun x => x = a) = b :: t := by
        rw [List.dropWhile]
        simp [hab]
      rw [hdrop] at hnd
      exact hnd hmem


theorem labelsOfEntries_cons_file {nm : String} {nd : NodeData}
    (tl : List (String × NodeData)) (h : nd.nodeType = NodeType.FILENODE) :
    labelsOfEntries ((nm, nd) :: tl) = labelsOfEntries tl := by
  unfold labelsOfEntries
  rw [List.filter_cons]
  simp [isTaskEntry, h]

theorem labelsOfEntries_cons_task {nm : String} {nd : NodeData}
    (tl : List (String × NodeData)) (h : nd.nodeType = NodeType.TASKNODE) :
    labelsOfEntries ((nm, nd) :: tl) =
      entryLabel (nm, nd) :: labelsOfEntries tl := by
  unfold labelsOfEntries
  rw [List.filter_cons]
  simp [isTaskEntry, h]

theorem linkInitAux_cons_miss_b {cache : List (String × String × String)}
    {g : DiGraph} {a b : String} {t2 : List String}
    (hb : alookup cache b = none) :
    linkInitAux cache g (a :: b :: t2) = Except.error b := by
  simp only [linkInitAux, hb]

theorem linkInitAux_cons_miss_a {cache : List (String × String × String)}
    {g : DiGraph} {a b : String} {t2 : List String} {pb : String × String}
    (hb : alookup cache b = some pb) (ha : alookup cache a = none) :
    linkInitAux cache g (a :: b :: t2) = Except.error a := by
  simp only [linkInitAux, hb, ha]

theorem linkInitAux_cons_hit {cache : List (String × String × String)}
    {g : DiGraph} {a b : String} {t2 : List String} {pa pb : String × String}
    (hb : alookup cache b = some pb) (ha : alookup cache a = some pa) :
    linkInitAux cache g (a :: b :: t2) =
      linkInitAux cache (g.addEdge pa.2 pb.1) (b :: t2) := by
  simp only [linkInitAux, hb, ha]

theorem linkInitAux_nodes (cache : List (String × String × String)) :
    ∀ (l : List String) (g g2 : DiGraph),
    linkInitAux cache g l = Except.ok g2 → g2.nodes = g.nodes := by
  intro l
  induction l with
  | nil =>
    intro g g2 h
    cases h
    rfl
  | cons a t ih =>
    intro g g2 h
    cases t with
    | nil =>
      cases h
      rfl
    | cons b t2 =>
      cases hb : alookup cache b with
      | none =>
        rw [linkInitAux_cons_miss_b hb] at h
        cases h
      | some pb =>
        cases ha : alookup cache a with
        | none =>
          rw [linkInitAux_cons_miss_a hb ha] at h
          cases h
        | some pa =>
          rw [linkInitAux_cons_hit hb ha] at h
          rw [ih _ _ h, addEdge_nodes]

theorem linkInitAux_edges_mono (cache : List (String × String × String)) :
    ∀ (l : List String) (g g2 : DiGraph), linkInitAux cache g l = Except.ok g2 →
    ∀ e ∈ g.edges, e ∈ g2.edges := by
  intro l
  induction l with
  | nil =>
    intro g g2 h e he
    cases h
    exact he
  | cons a t ih =>
    intro g g2 h e he
    cases t with
    | nil =>
      cases h
      exact he
    | cons b t2 =>
      cases hb : alookup cache b with
      | none =>
        rw [linkInitAux_cons_miss_b hb] at h
        cases h
      | some pb =>
        cases ha : alookup cache a with
        | none =>
          rw [linkInitAux_cons_miss_a hb ha] at h
          cases h
        | some pa =>
          rw [linkInitAux_cons_hit hb ha] at h
          exact ih _ _ h e (addEdge_mono _ _ he)

theorem linkInitAux_adds (cache : List (String × String × String)) :
    ∀ (pre : List String) (a b : String) (post : List String) (g g2 : DiGraph)
      (pa pb : String × String),
    alookup cache a = some pa → alookup cache b = some pb →
    linkInitAux cache g (pre ++ a :: b :: post) = Except.ok g2 →
    (pa.2, pb.1) ∈ g2.edges := by
  intro pre
  induction pre with
  | nil =>
    intro a b post g g2 pa pb ha hb h
    rw [List.nil_append, linkInitAux_cons_hit hb ha] at h
    exact linkInitAux_edges_mono cache (b :: post) _ _ h _ (addEdge_mem g pa.2 pb.1)
  | cons c pre2 ih =>
    intro a b post g g2 pa pb ha hb h
    rw [List.cons_append] at h
    cases hsplit : pre2 ++ a :: b :: post with
    | nil => exact absurd hsplit (by cases pre2 <;> simp)
    | cons d rest =>
      rw [hsplit] at h
      cases hd : alookup cache d with
      | none =>
        rw [linkInitAux_cons_miss_b hd] at h
        cases h
      | some pd =>
        cases hc : alookup cache c with
        | none =>
          rw [linkInitAux_cons_miss_a hd hc] at h
          cases h
        | some pc =>
          rw [linkInitAux_cons_hit hd hc] at h
          rw [← hsplit] at h
          exact ih a b post _ g2 pa pb ha hb h

theorem linkInitAux_ok (cache : List (String × String × String)) :
    ∀ (l : List String) (g : DiGraph),
    (∀ L ∈ l, ∃ p, alookup cache L = some p) →
    ∃ g2, linkInitAux cache g l = Except.ok g2 := by
  intro l
  induction l with
  | nil =>
    intro g _
    exact ⟨g, rfl⟩
  | cons a t ih =>
    intro g hall
    cases t with
    | nil => exact ⟨g, rfl⟩
    | cons b t2 =>
      obtain ⟨pa, ha⟩ := hall a (List.mem_cons_self _ _)
      obtain ⟨pb, hb⟩ := hall b (List.mem_cons_of_mem _ (List.mem_cons_self _ _))
      obtain ⟨g2, hg2⟩ := ih (g.addEdge pa.2 pb.1)
        (fun L hL => hall L (List.mem_cons_of_mem _ hL))
      refine ⟨g2, ?_⟩
      rw [linkInitAux_cons_hit hb ha]
      exact hg2

/- ===== processWFNode branch equations ===== -/

theorem processWFNode_none (cfg : BpsConfig) (gname : String)
    (qgnodes : List (String × QuantumGraphTaskNodes)) {st : WFState} {nm : String}
    (h : alookup st.graph.nodes nm = none) :
    processWFNode cfg gname qgnodes st nm = st := by
  simp only [processWFNode, h]

theorem processWFNode_file (cfg : BpsConfig) (gname : String)
    (qgnodes : List (String × QuantumGraphTaskNodes)) {st : WFState} {nm : String}
    {nd' : NodeData} (hlk : alookup st.graph.nodes nm = some nd')
    (hty : nd'.nodeType = NodeType.FILENODE) :
    processWFNode cfg gname qgnodes st nm =
      { st with
          graph := st.graph.setNode nm
            { nd' with
                lfn := some nm
                ignore := some true
                data_type := some "science" } } := by
  simp only [processWFNode, hlk, hty]

theorem processWFNode_task_noinit (cfg : BpsConfig) (gname : String)
    (qgnodes : List (String × QuantumGraphTaskNodes)) {st : WFState} {nm : String}
    {nd' : NodeData} (hlk : alookup st.graph.nodes nm = some nd')
    (hty : nd'.nodeType = NodeType.TASKNODE) (hri : cfg.runInit = false) :
    processWFNode cfg gname qgnodes st nm = taskStepCore cfg qgnodes st nm nd' := by
  simp only [processWFNode, hlk, hty, hri, taskStepCore, qDescNode, descPath,
    Bool.false_eq_true, if_false]

theorem processWFNode_task_hit (cfg : BpsConfig) (gname : String)
    (qgnodes : List (String × QuantumGraphTaskNodes)) {st : WFState} {nm : String}
    {nd' : NodeData} {pr : String × String}
    (hlk : alookup st.graph.nodes nm = some nd')
    (hty : nd'.nodeType = NodeType.TASKNODE) (hri : cfg.runInit = true)
    (hc : alookup st.init_nodes (nd'.taskAbbrev.getD "") = some pr) :
    processWFNode cfg gname qgnodes st nm =
      { taskStepCore cfg qgnodes st nm nd' with
          graph := (taskStepCore cfg qgnodes st nm nd').graph.addEdge
            (st.sfNodeName.getD "") nm } := by
  simp only [processWFNode, hlk, hty, hri, hc, taskStepCore, qDescNode, descPath,
    if_true]

theorem processWFNode_task_miss (cfg : BpsConfig) (gname : String)
    (qgnodes : List (String × QuantumGraphTaskNodes)) {st : WFState} {nm : String}
    {nd' : NodeData} (hlk : alookup st.graph.nodes nm = some nd')
    (hty : nd'.nodeType = NodeType.TASKNODE) (hri : cfg.runInit = true)
    (hc : alookup st.init_nodes (nd'.taskAbbrev.getD "") = none) :
    processWFNode cfg gname qgnodes st nm = taskStepInit cfg gname qgnodes st nm nd' := by
  simp only [processWFNode, hlk, hty, hri, hc, taskStepInit, taskStepCore, qDescNode,
    initTaskNode0, initFileNode, descPath, if_true]

/- ===== Workflow invariant: step preservation ===== -/

theorem mem_names_of_range {g : DiGraph} {n : Nat}
    (h : g.nodes.map Prod.fst = (List.range' 1 n).map fmt6) {nm : String}
    (hmem : nm ∈ g.nodes.map Prod.fst) : ∃ j, 1 ≤ j ∧ j ≤ n ∧ nm = fmt6 j := by
  rw [h] at hmem
  rcases List.mem_map.mp hmem with ⟨j, hj, rfl⟩
  have hj2 := List.mem_range'_1.mp hj
  exact ⟨j, hj2.1, by omega, rfl⟩

theorem ne_fmt6_of_le {nm : String} {n k : Nat}
    (hnm : ∃ j, 1 ≤ j ∧ j ≤ n ∧ nm = fmt6 j) (hk : n < k) : fmt6 k ≠ nm := by
  rcases hnm with ⟨j, h1, h2, rfl⟩
  intro h
  have h3 := fmt6_injective h
  omega

theorem wfInv_step_file (cfg : BpsConfig) (gname : String)
    (qgnodes : List (String × QuantumGraphTaskNodes)) {g0 : DiGraph}
    {procTasks : List (String × NodeData)} {rem : List String} {st : WFState}
    {nm : String} {nd : NodeData}
    (hg0 : g0.nodes.map Prod.fst = (List.range' 1 g0.nodes.length).map fmt6)
    (hmem : (nm, nd) ∈ g0.nodes) (hft : nd.nodeType = NodeType.FILENODE)
    (hinv : WFInv cfg qgnodes g0 procTasks rem st) :
    WFInv cfg qgnodes g0 procTasks rem (processWFNode cfg gname qgnodes st nm) := by
  obtain ⟨nd', hlk, hty, hab, hid⟩ := hinv.orig (nm, nd) hmem
  rw [show (nm, nd).2.nodeType = nd.nodeType from rfl, hft] at hty
  rw [processWFNode_file cfg gname qgnodes hlk hty]
  have hg0nodup : (g0.nodes.map Prod.fst).Nodup := names_nodup_of_range hg0
  have hnmmem : nm ∈ st.graph.nodes.map Prod.fst := alookup_mem_names hlk
  have hnmrange : ∃ j, 1 ≤ j ∧ j ≤ g0.nodes.length ∧ nm = fmt6 j :=
    mem_names_of_range hg0 (List.mem_map.mpr ⟨(nm, nd), hmem, rfl⟩)
  refine { names := ?_, lower := ?_, orig := ?_, writes := ?_, qcount := ?_,
           ncount := ?_, descs := ?_, cacheNodup := ?_, cacheKeys := ?_,
           cacheNodes := ?_, initEdges := ?_, remOK := ?_, remBlocks := ?_ }
  · show (st.graph.setNode nm _).nodes.map Prod.fst = _
    rw [setNode_fst]
    exact hinv.names
  · exact hinv.lower
  · intro p hp
    obtain ⟨pd, hplk, h1, h2, h3⟩ := hinv.orig p hp
    by_cases hpe : p.1 = nm
    · have hp2 : (nm, p.2) ∈ g0.nodes := by
        rw [← hpe]
        exact hp
      have hpnd : p.2 = nd := nodup_key_unique hg0nodup hp2 hmem
      refine ⟨{ nd' with
          lfn := some nm
          ignore := some true
          data_type := some "science" }, ?_, ?_, ?_, ?_⟩
      · rw [hpe]
        exact setNode_lookup_self st.graph _ hnmmem
      · show nd'.nodeType = p.2.nodeType
        rw [hty, hpnd, hft]
      · show nd'.taskAbbrev = p.2.taskAbbrev
        rw [hab, hpnd]
      · show nd'.task_def_id = p.2.task_def_id
        rw [hid, hpnd]
    · exact ⟨pd, (by rw [setNode_lookup_ne st.graph _ hpe]; exact hplk), h1, h2, h3⟩
  · exact hinv.writes
  · exact hinv.qcount
  · exact hinv.ncount
  · intro p hp
    obtain ⟨k, qd, hk1, hk2, hqlk, hrest⟩ := hinv.descs p hp
    refine ⟨k, qd, hk1, hk2, ?_, hrest.1, hrest.2.1, hrest.2.2.1, hrest.2.2.2.1,
      hrest.2.2.2.2.1, ?_⟩
    · rw [setNode_lookup_ne st.graph _ (ne_fmt6_of_le hnmrange hk1)]
      exact hqlk
    · show (fmt6 k, p.1) ∈ (st.graph.setNode nm _).edges
      rw [setNode_edges]
      exact hrest.2.2.2.2.2
  · exact hinv.cacheNodup
  · exact hinv.cacheKeys
  · intro e he
    obtain ⟨k1, k2, d1, d2, he1, he2, hb1, hb2, hb3, hb4, hl1, hd1, hd2, hd3,
      hl2, hd4, hd5, hedge⟩ := hinv.cacheNodes e he
    refine ⟨k1, k2, d1, d2, he1, he2, hb1, hb2, hb3, hb4, ?_, hd1, hd2, hd3,
      ?_, hd4, hd5, ?_⟩
    · rw [he1, setNode_lookup_ne st.graph _ (ne_fmt6_of_le hnmrange hb1)]
      rw [← he1]
      exact hl1
    · rw [he2, setNode_lookup_ne st.graph _ (ne_fmt6_of_le hnmrange hb3)]
      rw [← he2]
      exact hl2
    · show (e.2.1, e.2.2) ∈ (st.graph.setNode nm _).edges
      rw [setNode_edges]
      exact hedge
  · intro hri p hp
    obtain ⟨stN, sfN, hl, hedge⟩ := hinv.initEdges hri p hp
    refine ⟨stN, sfN, hl, ?_⟩
    show (sfN, p.1) ∈ (st.graph.setNode nm _).edges
    rw [setNode_edges]
    exact hedge
  · exact hinv.remOK
  · exact hinv.remBlocks

theorem addNode_edges (g : DiGraph) (n : String) (d : NodeData) :
    (g.addNode n d).edges = g.edges := by
  unfold DiGraph.addNode
  split <;> rfl

theorem taskStepCore_facts (cfg : BpsConfig)
    (qgnodes : List (String × QuantumGraphTaskNodes)) {st : WFState}
    {nm : String} {nd' : NodeData}
    (hnames : st.graph.nodes.map Prod.fst = (List.range' 1 st.ncnt).map fmt6)
    (hlk : alookup st.graph.nodes nm = some nd') :
    ((taskStepCore cfg qgnodes st nm nd').graph.nodes.map Prod.fst =
      (List.range' 1 (st.ncnt + 1)).map fmt6) ∧
    (∀ (s : String) (d : NodeData), alookup st.graph.nodes s = some d → s ≠ nm →
      alookup (taskStepCore cfg qgnodes st nm nd').graph.nodes s = some d) ∧
    (alookup (taskStepCore cfg qgnodes st nm nd').graph.nodes nm =
      some (updateTask cfg (nd'.taskAbbrev.getD "")
        { nd' with job_attrib := some [("bps_jobabbrev", nd'.taskAbbrev.getD "")] })) ∧
    (alookup (taskStepCore cfg qgnodes st nm nd').graph.nodes
      (fmt6 (st.ncnt + 1)) = some (qDescNode cfg (nd'.taskAbbrev.getD "") nm)) ∧
    (∀ e ∈ st.graph.edges, e ∈ (taskStepCore cfg qgnodes st nm nd').graph.edges) ∧
    ((fmt6 (st.ncnt + 1), nm) ∈ (taskStepCore cfg qgnodes st nm nd').graph.edges) := by
  have hnm_mem : nm ∈ st.graph.nodes.map Prod.fst := alookup_mem_names hlk
  have hqn_fresh0 : fmt6 (st.ncnt + 1) ∉ st.graph.nodes.map Prod.fst :=
    fmt6_fresh hnames (by omega)
  have hqn_ne_nm : fmt6 (st.ncnt + 1) ≠ nm := by
    intro h
    rw [h] at hqn_fresh0
    exact hqn_fresh0 hnm_mem
  unfold taskStepCore
  dsimp only
  have hqn_fresh1 : fmt6 (st.ncnt + 1) ∉
      (st.graph.setNode nm { nd' with
        job_attrib := some [("bps_jobabbrev", nd'.taskAbbrev.getD "")] }).nodes.map
        Prod.fst := by
    rw [setNode_fst]
    exact hqn_fresh0
  have hadd := addNode_fresh (d := qDescNode cfg (nd'.taskAbbrev.getD "") nm) hqn_fresh1
  refine ⟨?_, ?_, ?_, ?_, ?_, ?_⟩
  · rw [addEdge_nodes, setNode_fst, hadd.1, List.map_append, setNode_fst, hnames,
      range_map_concat]
    rfl
  · intro s d hs hne
    rw [addEdge_nodes, setNode_lookup_ne _ _ hne, hadd.1]
    apply alookup_append_left
    rw [setNode_lookup_ne _ _ hne]
    exact hs
  · rw [addEdge_nodes]
    apply setNode_lookup_self
    rw [hadd.1, List.map_append, setNode_fst]
    exact List.mem_append.mpr (Or.inl hnm_mem)
  · rw [addEdge_nodes, setNode_lookup_ne _ _ hqn_ne_nm, hadd.1]
    apply alookup_snoc_self
    rw [setNode_fst]
    exact hqn_fresh0
  · intro e he
    apply addEdge_mono
    rw [setNode_edges, addNode_edges, setNode_edges]
    exact he
  · exact addEdge_mem _ _ _

theorem taskStepCore_ncnt (cfg : BpsConfig)
    (qgnodes : List (String × QuantumGraphTaskNodes)) (st : WFState)
    (nm : String) (nd' : NodeData) :
    (taskStepCore cfg qgnodes st nm nd').ncnt = st.ncnt + 1 := rfl

theorem wfInv_step_task_noinit (cfg : BpsConfig) (gname : String)
    (qgnodes : List (String × QuantumGraphTaskNodes)) {g0 : DiGraph}
    {procTasks : List (String × NodeData)} {remTl : List String} {st : WFState}
    {nm : String} {nd : NodeData}
    (hg0 : g0.nodes.map Prod.fst = (List.range' 1 g0.nodes.length).map fmt6)
    (hmem : (nm, nd) ∈ g0.nodes) (htt : nd.nodeType = NodeType.TASKNODE)
    (hri : cfg.runInit = false)
    (hinv : WFInv cfg qgnodes g0 procTasks (entryLabel (nm, nd) :: remTl) st) :
    WFInv cfg qgnodes g0 (procTasks ++ [(nm, nd)]) remTl
      (processWFNode cfg gname qgnodes st nm) := by
  obtain ⟨nd', hlk, hty0, hab, hid⟩ := hinv.orig (nm, nd) hmem
  have hty : nd'.nodeType = NodeType.TASKNODE := by
    rw [hty0]
    exact htt
  rw [processWFNode_task_noinit cfg gname qgnodes hlk hty hri]
  obtain ⟨hF1, hF2, hF3, hF4, hF5, hF6⟩ := taskStepCore_facts cfg qgnodes hinv.names hlk
  have hL : nd'.taskAbbrev.getD "" = entryLabel (nm, nd) := by
    unfold entryLabel
    rw [hab]
  have hg0nodup : (g0.nodes.map Prod.fst).Nodup := names_nodup_of_range hg0
  have hnmrange : ∃ j, 1 ≤ j ∧ j ≤ g0.nodes.length ∧ nm = fmt6 j :=
    mem_names_of_range hg0 (List.mem_map.mpr ⟨(nm, nd), hmem, rfl⟩)
  refine { names := hF1, lower := ?_, orig := ?_, writes := ?_, qcount := ?_,
           ncount := ?_, descs := ?_, cacheNodup := hinv.cacheNodup,
           cacheKeys := ?_, cacheNodes := ?_, initEdges := ?_, remOK := ?_,
           remBlocks := blocks_nodup_tail hinv.remBlocks }
  · show g0.nodes.length ≤ st.ncnt + 1
    have hl := hinv.lower
    omega
  · intro p hp
    by_cases hpe : p.1 = nm
    · have hp2 : (nm, p.2) ∈ g0.nodes := by
        rw [← hpe]
        exact hp
      have hpnd : p.2 = nd := nodup_key_unique hg0nodup hp2 hmem
      refine ⟨updateTask cfg (nd'.taskAbbrev.getD "")
        { nd' with job_attrib := some [("bps_jobabbrev", nd'.taskAbbrev.getD "")] },
        ?_, ?_, ?_, ?_⟩
      · rw [hpe]
        exact hF3
      · show nd'.nodeType = p.2.nodeType
        rw [hty0, hpnd]
      · show nd'.taskAbbrev = p.2.taskAbbrev
        rw [hab, hpnd]
      · show nd'.task_def_id = p.2.task_def_id
        rw [hid, hpnd]
    · obtain ⟨pd, hplk, h1, h2, h3⟩ := hinv.orig p hp
      exact ⟨pd, hF2 p.1 pd hplk hpe, h1, h2, h3⟩
  · show st.writes ++ [(descPath cfg (nd'.taskAbbrev.getD "") nm, alookup qgnodes nm)] = _
    rw [hL, hinv.writes, List.map_append]
    rfl
  · show st.qcnt + 1 = (procTasks ++ [(nm, nd)]).length
    rw [List.length_append, hinv.qcount]
    rfl
  · show st.ncnt + 1 = g0.nodes.length + (st.qcnt + 1) + 2 * st.init_nodes.length
    have hn := hinv.ncount
    omega
  · intro p hp
    rcases List.mem_append.mp hp with hp1 | hp1
    · obtain ⟨k, qd, hk1, hk2, hqlk, hq1, hq2, hq3, hq4, hq5, hedge⟩ :=
        hinv.descs p hp1
      have hkne : fmt6 k ≠ nm := ne_fmt6_of_le hnmrange hk1
      exact ⟨k, qd, hk1, (by rw [taskStepCore_ncnt]; omega), hF2 (fmt6 k) qd hqlk hkne,
        hq1, hq2, hq3, hq4, hq5, hF5 _ hedge⟩
    · simp only [List.mem_cons, List.not_mem_nil, or_false] at hp1
      subst hp1
      refine ⟨st.ncnt + 1, qDescNode cfg (entryLabel (nm, nd)) nm,
        (by have := hinv.lower; omega), (by rw [taskStepCore_ncnt]), ?_, rfl, rfl,
        rfl, rfl, rfl, hF6⟩
      rw [← hL]
      exact hF4
  · intro L2
    rw [show (taskStepCore cfg qgnodes st nm nd').init_nodes = st.init_nodes from rfl,
      hinv.cacheKeys L2, hri]
    simp
  · intro e he
    obtain ⟨k1, k2, d1, d2, he1, he2, hb1, hb2, hb3, hb4, hl1, hd1, hd2, hd3,
      hl2, hd4, hd5, hedge⟩ := hinv.cacheNodes e he
    refine ⟨k1, k2, d1, d2, he1, he2, hb1, (by rw [taskStepCore_ncnt]; omega), hb3,
      (by rw [taskStepCore_ncnt]; omega), ?_, hd1, hd2, hd3, ?_, hd4, hd5,
      hF5 _ hedge⟩
    · rw [he1]
      apply hF2
      · rw [← he1]
        exact hl1
      · exact ne_fmt6_of_le hnmrange hb1
    · rw [he2]
      apply hF2
      · rw [← he2]
        exact hl2
      · exact ne_fmt6_of_le hnmrange hb3
  · intro h
    rw [hri] at h
    exact absurd h (by decide)
  · intro h
    rw [hri] at h
    exact absurd h (by decide)

theorem wfInv_step_task_hit (cfg : BpsConfig) (gname : String)
    (qgnodes : List (String × QuantumGraphTaskNodes)) {g0 : DiGraph}
    {procTasks : List (String × NodeData)} {remTl : List String} {st : WFState}
    {nm : String} {nd : NodeData} {pr : String × String}
    (hg0 : g0.nodes.map Prod.fst = (List.range' 1 g0.nodes.length).map fmt6)
    (hmem : (nm, nd) ∈ g0.nodes) (htt : nd.nodeType = NodeType.TASKNODE)
    (hri : cfg.runInit = true)
    (hc : alookup st.init_nodes (entryLabel (nm, nd)) = some pr)
    (hinv : WFInv cfg qgnodes g0 procTasks (entryLabel (nm, nd) :: remTl) st) :
    WFInv cfg qgnodes g0 (procTasks ++ [(nm, nd)]) remTl
      (processWFNode cfg gname qgnodes st nm) := by
  obtain ⟨nd', hlk, hty0, hab, hid⟩ := hinv.orig (nm, nd) hmem
  have hty : nd'.nodeType = NodeType.TASKNODE := by
    rw [hty0]
    exact htt
  have hL : nd'.taskAbbrev.getD "" = entryLabel (nm, nd) := by
    unfold entryLabel
    rw [hab]
  have hc2 : alookup st.init_nodes (nd'.taskAbbrev.getD "") = some pr := by
    rw [hL]
    exact hc
  rw [processWFNode_task_hit cfg gname qgnodes hlk hty hri hc2]
  obtain ⟨hF1, hF2, hF3, hF4, hF5, hF6⟩ := taskStepCore_facts cfg qgnodes hinv.names hlk
  have hg0nodup : (g0.nodes.map Prod.fst).Nodup := names_nodup_of_range hg0
  have hnmrange : ∃ j, 1 ≤ j ∧ j ≤ g0.nodes.length ∧ nm = fmt6 j :=
    mem_names_of_range hg0 (List.mem_map.mpr ⟨(nm, nd), hmem, rfl⟩)
  have hcachemem : (entryLabel (nm, nd), pr) ∈ st.init_nodes := alookup_mem hc
  have hrem0 := hinv.remOK hri (entryLabel (nm, nd), pr) hcachemem
    (List.mem_cons_self _ _)
  have hsf : st.sfNodeName = some pr.2 := hrem0.1
  have hdrop0 : entryLabel (nm, nd) ∉
      ((entryLabel (nm, nd) :: remTl).dropWhile (fun x => x = entryLabel (nm, nd))) :=
    hrem0.2.2
  have hdropstep : (entryLabel (nm, nd) :: remTl).dropWhile
      (fun x => x = entryLabel (nm, nd)) =
      remTl.dropWhile (fun x => x = entryLabel (nm, nd)) := by
    simp [List.dropWhile]
  have hdropTl : entryLabel (nm, nd) ∉
      remTl.dropWhile (fun x => x = entryLabel (nm, nd)) := by
    rw [← hdropstep]
    exact hdrop0
  have hgd : st.sfNodeName.getD "" = pr.2 := by
    rw [hsf]
    rfl
  refine { names := ?_, lower := ?_, orig := ?_, writes := ?_, qcount := ?_,
           ncount := ?_, descs := ?_, cacheNodup := hinv.cacheNodup,
           cacheKeys := ?_, cacheNodes := ?_, initEdges := ?_, remOK := ?_,
           remBlocks := blocks_nodup_tail hinv.remBlocks }
  · show (DiGraph.addEdge _ _ _).nodes.map Prod.fst = _
    rw [addEdge_nodes]
    exact hF1
  · show g0.nodes.length ≤ st.ncnt + 1
    have hl := hinv.lower
    omega
  · intro p hp
    by_cases hpe : p.1 = nm
    · have hp2 : (nm, p.2) ∈ g0.nodes := by
        rw [← hpe]
        exact hp
      have hpnd : p.2 = nd := nodup_key_unique hg0nodup hp2 hmem
      refine ⟨updateTask cfg (nd'.taskAbbrev.getD "")
        { nd' with job_attrib := some [("bps_jobabbrev", nd'.taskAbbrev.getD "")] },
        ?_, ?_, ?_, ?_⟩
      · rw [hpe]
        show alookup (DiGraph.addEdge _ _ _).nodes nm = _
        rw [addEdge_nodes]
        exact hF3
      · show nd'.nodeType = p.2.nodeType
        rw [hty0, hpnd]
      · show nd'.taskAbbrev = p.2.taskAbbrev
        rw [hab, hpnd]
      · show nd'.task_def_id = p.2.task_def_id
        rw [hid, hpnd]
    · obtain ⟨pd, hplk, h1, h2, h3⟩ := hinv.orig p hp
      refine ⟨pd, ?_, h1, h2, h3⟩
      show alookup (DiGraph.addEdge _ _ _).nodes p.1 = _
      rw [addEdge_nodes]
      exact hF2 p.1 pd hplk hpe
  · show st.writes ++ [(descPath cfg (nd'.taskAbbrev.getD "") nm, alookup qgnodes nm)] = _
    rw [hL, hinv.writes, List.map_append]
    rfl
  · show st.qcnt + 1 = (procTasks ++ [(nm, nd)]).length
    rw [List.length_append, hinv.qcount]
    rfl
  · show st.ncnt + 1 = g0.nodes.length + (st.qcnt + 1) + 2 * st.init_nodes.length
    have hn := hinv.ncount
    omega
  · intro p hp
    rcases List.mem_append.mp hp with hp1 | hp1
    · obtain ⟨k, qd, hk1, hk2, hqlk, hq1, hq2, hq3, hq4, hq5, hedge⟩ :=
        hinv.descs p hp1
      have hkne : fmt6 k ≠ nm := ne_fmt6_of_le hnmrange hk1
      refine ⟨k, qd, hk1, (by show k ≤ st.ncnt + 1; omega), ?_, hq1, hq2, hq3,
        hq4, hq5, ?_⟩
      · show alookup (DiGraph.addEdge _ _ _).nodes (fmt6 k) = _
        rw [addEdge_nodes]
        exact hF2 (fmt6 k) qd hqlk hkne
      · exact addEdge_mono _ _ (hF5 _ hedge)
    · simp only [List.mem_cons, List.not_mem_nil, or_false] at hp1
      subst hp1
      refine ⟨st.ncnt + 1, qDescNode cfg (entryLabel (nm, nd)) nm,
        (by have hl := hinv.lower; omega), (by show st.ncnt + 1 ≤ st.ncnt + 1; omega),
        ?_, rfl, rfl, rfl, rfl, rfl, addEdge_mono _ _ hF6⟩
      show alookup (DiGraph.addEdge _ _ _).nodes (fmt6 (st.ncnt + 1)) = _
      rw [addEdge_nodes, ← hL]
      exact hF4
  · intro L2
    rw [show ({ taskStepCore cfg qgnodes st nm nd' with
        graph := (taskStepCore cfg qgnodes st nm nd').graph.addEdge
          (st.sfNodeName.getD "") nm } : WFState).init_nodes = st.init_nodes from rfl,
      hinv.cacheKeys L2]
    constructor
    · rintro ⟨h1, h2⟩
      exact ⟨h1, by rw [List.map_append]; exact List.mem_append.mpr (Or.inl h2)⟩
    · rintro ⟨h1, h2⟩
      refine ⟨h1, ?_⟩
      rw [List.map_append] at h2
      rcases List.mem_append.mp h2 with h3 | h3
      · exact h3
      · simp only [List.map_cons, List.map_nil, List.mem_cons, List.not_mem_nil,
          or_false] at h3
        rw [h3]
        exact ((hinv.cacheKeys (entryLabel (nm, nd))).mp (alookup_mem_names hc)).2
  · intro e he
    obtain ⟨k1, k2, d1, d2, he1, he2, hb1, hb2, hb3, hb4, hl1, hd1, hd2, hd3,
      hl2, hd4, hd5, hedge⟩ := hinv.cacheNodes e he
    refine ⟨k1, k2, d1, d2, he1, he2, hb1, (by show k1 ≤ st.ncnt + 1; omega), hb3,
      (by show k2 ≤ st.ncnt + 1; omega), ?_, hd1, hd2, hd3, ?_, hd4, hd5,
      addEdge_mono _ _ (hF5 _ hedge)⟩
    · show alookup (DiGraph.addEdge _ _ _).nodes e.2.1 = _
      rw [addEdge_nodes, he1]
      apply hF2
      · rw [← he1]
        exact hl1
      · exact ne_fmt6_of_le hnmrange hb1
    · show alookup (DiGraph.addEdge _ _ _).nodes e.2.2 = _
      rw [addEdge_nodes, he2]
      apply hF2
      · rw [← he2]
        exact hl2
      · exact ne_fmt6_of_le hnmrange hb3
  · intro hri2 p hp
    rcases List.mem_append.mp hp with hp1 | hp1
    · obtain ⟨stN, sfN, hcl, hedge⟩ := hinv.initEdges hri2 p hp1
      exact ⟨stN, sfN, hcl, addEdge_mono _ _ (hF5 _ hedge)⟩
    · simp only [List.mem_cons, List.not_mem_nil, or_false] at hp1
      subst hp1
      refine ⟨pr.1, pr.2, hc, ?_⟩
      rw [← hgd]
      exact addEdge_mem _ _ _
  · intro hri2 e2 he2 hmem2
    have hsame : ({ taskStepCore cfg qgnodes st nm nd' with
        graph := (taskStepCore cfg qgnodes st nm nd').graph.addEdge
          (st.sfNodeName.getD "") nm } : WFState).sfNodeName = st.sfNodeName := rfl
    rw [hsame]
    by_cases heL : e2.1 = entryLabel (nm, nd)
    · have hval : pr = e2.2 := by
        have hlkup : alookup st.init_nodes e2.1 = some e2.2 :=
          alookup_of_mem_nodup hinv.cacheNodup he2
        rw [heL] at hlkup
        rw [hc] at hlkup
        exact Option.some_inj.mp hlkup
      refine ⟨?_, ?_, ?_⟩
      · rw [hsf, hval]
      · apply head_of_not_dropWhile
        · rw [heL] at hmem2 ⊢
          exact hmem2
        · rw [heL]
          exact hdropTl
      · rw [heL]
        exact hdropTl
    · exfalso
      have hr := hinv.remOK hri2 e2 he2 (List.mem_cons_of_mem _ hmem2)
      have hh := hr.2.1
      simp only [List.head?_cons, Option.some_inj] at hh
      exact heL hh.symm

theorem taskStepInit_facts (cfg : BpsConfig) (gname : String)
    (qgnodes : List (String × QuantumGraphTaskNodes)) {st : WFState}
    {nm : String} {nd' : NodeData}
    (hnames : st.graph.nodes.map Prod.fst = (List.range' 1 st.ncnt).map fmt6)
    (hlk : alookup st.graph.nodes nm = some nd') :
    ((taskStepInit cfg gname qgnodes st nm nd').graph.nodes.map Prod.fst =
      (List.range' 1 (st.ncnt + 3)).map fmt6) ∧
    (∀ (s : String) (d : NodeData),
      alookup (taskStepCore cfg qgnodes st nm nd').graph.nodes s = some d →
      alookup (taskStepInit cfg gname qgnodes st nm nd').graph.nodes s = some d) ∧
    (alookup (taskStepInit cfg gname qgnodes st nm nd').graph.nodes
      (fmt6 (st.ncnt + 2)) = some (updateTask cfg "pipetask_init"
        (initTaskNode0 cfg gname (nd'.taskAbbrev.getD "") nd'.task_def_id))) ∧
    (alookup (taskStepInit cfg gname qgnodes st nm nd').graph.nodes
      (fmt6 (st.ncnt + 3)) = some (initFileNode (nd'.taskAbbrev.getD ""))) ∧
    (∀ e ∈ (taskStepCore cfg qgnodes st nm nd').graph.edges,
      e ∈ (taskStepInit cfg gname qgnodes st nm nd').graph.edges) ∧
    ((fmt6 (st.ncnt + 2), fmt6 (st.ncnt + 3)) ∈
      (taskStepInit cfg gname qgnodes st nm nd').graph.edges) ∧
    ((fmt6 (st.ncnt + 1), fmt6 (st.ncnt + 2)) ∈
      (taskStepInit cfg gname qgnodes st nm nd').graph.edges) ∧
    ((fmt6 (st.ncnt + 3), nm) ∈
      (taskStepInit cfg gname qgnodes st nm nd').graph.edges) := by
  obtain ⟨hC1, _, _, _, _, _⟩ := taskStepCore_facts cfg qgnodes hnames hlk
  have h2fresh : fmt6 (st.ncnt + 2) ∉
      (taskStepCore cfg qgnodes st nm nd').graph.nodes.map Prod.fst := by
    apply fmt6_fresh (n := st.ncnt + 1)
    · exact hC1
    · omega
  have hadd2 := addNode_fresh (d := updateTask cfg "pipetask_init"
    (initTaskNode0 cfg gname (nd'.taskAbbrev.getD "") nd'.task_def_id)) h2fresh
  have names2 : ((taskStepCore cfg qgnodes st nm nd').graph.addNode
      (fmt6 (st.ncnt + 2)) (updateTask cfg "pipetask_init"
        (initTaskNode0 cfg gname (nd'.taskAbbrev.getD "")
          nd'.task_def_id))).nodes.map Prod.fst =
      (List.range' 1 (st.ncnt + 2)).map fmt6 := by
    rw [hadd2.1, List.map_append, hC1]
    simp only [List.map_cons, List.map_nil]
    have hcc := range_map_concat (st.ncnt + 1)
    rw [show st.ncnt + 1 + 1 = st.ncnt + 2 from rfl] at hcc
    rw [← hcc]
  have h3fresh : fmt6 (st.ncnt + 3) ∉
      ((taskStepCore cfg qgnodes st nm nd').graph.addNode
        (fmt6 (st.ncnt + 2)) (updateTask cfg "pipetask_init"
          (initTaskNode0 cfg gname (nd'.taskAbbrev.getD "")
            nd'.task_def_id))).nodes.map Prod.fst := by
    apply fmt6_fresh (n := st.ncnt + 2)
    · exact names2
    · omega
  have hadd3 := addNode_fresh (d := initFileNode (nd'.taskAbbrev.getD "")) h3fresh
  unfold taskStepInit
  dsimp only
  refine ⟨?_, ?_, ?_, ?_, ?_, ?_, ?_, ?_⟩
  · rw [addEdge_nodes, addEdge_nodes, addEdge_nodes, hadd3.1, List.map_append,
      names2]
    simp only [List.map_cons, List.map_nil]
    have hcc := range_map_concat (st.ncnt + 2)
    rw [show st.ncnt + 2 + 1 = st.ncnt + 3 from rfl] at hcc
    rw [← hcc]
  · intro s d hs
    rw [addEdge_nodes, addEdge_nodes, addEdge_nodes, hadd3.1]
    apply alookup_append_left
    rw [hadd2.1]
    apply alookup_append_left
    exact hs
  · rw [addEdge_nodes, addEdge_nodes, addEdge_nodes, hadd3.1]
    apply alookup_append_left
    rw [hadd2.1]
    apply alookup_snoc_self
    exact h2fresh
  · rw [addEdge_nodes, addEdge_nodes, addEdge_nodes, hadd3.1]
    apply alookup_snoc_self
    exact h3fresh
  · intro e he
    apply addEdge_mono
    apply addEdge_mono
    apply addEdge_mono
    rw [addNode_edges, addNode_edges]
    exact he
  · apply addEdge_mono
    apply addEdge_mono
    exact addEdge_mem _ _ _
  · apply addEdge_mono
    exact addEdge_mem _ _ _
  · exact addEdge_mem _ _ _

theorem wfInv_step_task_miss (cfg : BpsConfig) (gname : String)
    (qgnodes : List (String × QuantumGraphTaskNodes)) {g0 : DiGraph}
    {procTasks : List (String × NodeData)} {remTl : List String} {st : WFState}
    {nm : String} {nd : NodeData}
    (hg0 : g0.nodes.map Prod.fst = (List.range' 1 g0.nodes.length).map fmt6)
    (hmem : (nm, nd) ∈ g0.nodes) (htt : nd.nodeType = NodeType.TASKNODE)
    (hri : cfg.runInit = true)
    (hc : alookup st.init_nodes (entryLabel (nm, nd)) = none)
    (hinv : WFInv cfg qgnodes g0 procTasks (entryLabel (nm, nd) :: remTl) st) :
    WFInv cfg qgnodes g0 (procTasks ++ [(nm, nd)]) remTl
      (processWFNode cfg gname qgnodes st nm) := by
  obtain ⟨nd', hlk, hty0, hab, hid⟩ := hinv.orig (nm, nd) hmem
  have hty : nd'.nodeType = NodeType.TASKNODE := by
    rw [hty0]
    exact htt
  have hL : nd'.taskAbbrev.getD "" = entryLabel (nm, nd) := by
    unfold entryLabel
    rw [hab]
  have hc2 : alookup st.init_nodes (nd'.taskAbbrev.getD "") = none := by
    rw [hL]
    exact hc
  rw [processWFNode_task_miss cfg gname qgnodes hlk hty hri hc2]
  obtain ⟨hF1, hF2, hF3, hF4, hF5, hF6⟩ := taskStepCore_facts cfg qgnodes hinv.names hlk
  obtain ⟨hI1, hI2, hI3, hI4, hI5, hI6, hI7, hI8⟩ :=
    taskStepInit_facts cfg gname qgnodes hinv.names hlk
  have hg0nodup : (g0.nodes.map Prod.fst).Nodup := names_nodup_of_range hg0
  have hnmrange : ∃ j, 1 ≤ j ∧ j ≤ g0.nodes.length ∧ nm = fmt6 j :=
    mem_names_of_range hg0 (List.mem_map.mpr ⟨(nm, nd), hmem, rfl⟩)
  have hLout : entryLabel (nm, nd) ∉ st.init_nodes.map (fun e => e.1) := by
    intro hx
    rw [show st.init_nodes.map (fun e => e.1) = st.init_nodes.map Prod.fst from rfl]
      at hx
    exact alookup_eq_none.mp hc hx
  refine { names := ?_, lower := ?_, orig := ?_, writes := ?_, qcount := ?_,
           ncount := ?_, descs := ?_, cacheNodup := ?_,
           cacheKeys := ?_, cacheNodes := ?_, initEdges := ?_, remOK := ?_,
           remBlocks := blocks_nodup_tail hinv.remBlocks }
  · exact hI1
  · show g0.nodes.length ≤ st.ncnt + 3
    have hl := hinv.lower
    omega
  · intro p hp
    by_cases hpe : p.1 = nm
    · have hp2 : (nm, p.2) ∈ g0.nodes := by
        rw [← hpe]
        exact hp
      have hpnd : p.2 = nd := nodup_key_unique hg0nodup hp2 hmem
      refine ⟨updateTask cfg (nd'.taskAbbrev.getD "")
        { nd' with job_attrib := some [("bps_jobabbrev", nd'.taskAbbrev.getD "")] },
        ?_, ?_, ?_, ?_⟩
      · rw [hpe]
        exact hI2 nm _ hF3
      · show nd'.nodeType = p.2.nodeType
        rw [hty0, hpnd]
      · show nd'.taskAbbrev = p.2.taskAbbrev
        rw [hab, hpnd]
      · show nd'.task_def_id = p.2.task_def_id
        rw [hid, hpnd]
    · obtain ⟨pd, hplk, h1, h2, h3⟩ := hinv.orig p hp
      exact ⟨pd, hI2 p.1 pd (hF2 p.1 pd hplk hpe), h1, h2, h3⟩
  · show st.writes ++ [(descPath cfg (nd'.taskAbbrev.getD "") nm, alookup qgnodes nm)] = _
    rw [hL, hinv.writes, List.map_append]
    rfl
  · show st.qcnt + 1 = (procTasks ++ [(nm, nd)]).length
    rw [List.length_append, hinv.qcount]
    rfl
  · show st.ncnt + 3 =
      g0.nodes.length + (st.qcnt + 1) +
        2 * (st.init_nodes ++ [(nd'.taskAbbrev.getD "", fmt6 (st.ncnt + 2),
          fmt6 (st.ncnt + 3))]).length
    rw [List.length_append]
    have hn := hinv.ncount
    simp only [List.length_cons, List.length_nil]
    omega
  · intro p hp
    rcases List.mem_append.mp hp with hp1 | hp1
    · obtain ⟨k, qd, hk1, hk2, hqlk, hq1, hq2, hq3, hq4, hq5, hedge⟩ :=
        hinv.descs p hp1
      have hkne : fmt6 k ≠ nm := ne_fmt6_of_le hnmrange hk1
      exact ⟨k, qd, hk1, (by show k ≤ st.ncnt + 3; omega),
        hI2 (fmt6 k) qd (hF2 (fmt6 k) qd hqlk hkne), hq1, hq2, hq3, hq4, hq5,
        hI5 _ (hF5 _ hedge)⟩
    · simp only [List.mem_cons, List.not_mem_nil, or_false] at hp1
      subst hp1
      refine ⟨st.ncnt + 1, qDescNode cfg (entryLabel (nm, nd)) nm,
        (by have hl := hinv.lower; omega), (by show st.ncnt + 1 ≤ st.ncnt + 3; omega),
        ?_, rfl, rfl, rfl, rfl, rfl, hI5 _ hF6⟩
      rw [← hL]
      exact hI2 _ _ hF4
  · show (st.init_nodes ++ [(nd'.taskAbbrev.getD "", fmt6 (st.ncnt + 2),
      fmt6 (st.ncnt + 3))]).map (fun e => e.1) |>.Nodup
    rw [List.map_append]
    simp only [List.map_cons, List.map_nil]
    rw [List.nodup_append]
    refine ⟨hinv.cacheNodup, List.nodup_singleton _, ?_⟩
    intro s hs hsing
    simp only [List.mem_cons, List.not_mem_nil, or_false] at hsing
    rw [hsing, hL] at hs
    exact hLout hs
  · intro L2
    show L2 ∈ (st.init_nodes ++ [(nd'.taskAbbrev.getD "", fmt6 (st.ncnt + 2),
      fmt6 (st.ncnt + 3))]).map (fun e => e.1) ↔ _
    rw [List.map_append]
    simp only [List.map_cons, List.map_nil]
    constructor
    · intro hx
      rcases List.mem_append.mp hx with h1 | h1
      · have h2 := (hinv.cacheKeys L2).mp h1
        refine ⟨h2.1, ?_⟩
        rw [List.map_append]
        exact List.mem_append.mpr (Or.inl h2.2)
      · simp only [List.mem_cons, List.not_mem_nil, or_false] at h1
        refine ⟨hri, ?_⟩
        rw [List.map_append]
        apply List.mem_append.mpr
        right
        rw [h1, hL]
        exact List.mem_cons_self _ _
    · rintro ⟨h1, h2⟩
      rw [List.map_append] at h2
      rcases List.mem_append.mp h2 with h3 | h3
      · exact List.mem_append.mpr (Or.inl ((hinv.cacheKeys L2).mpr ⟨h1, h3⟩))
      · simp only [List.map_cons, List.map_nil, List.mem_cons, List.not_mem_nil,
          or_false] at h3
        apply List.mem_append.mpr
        right
        rw [h3, hL]
        exact List.mem_cons_self _ _
  · intro e he
    rcases List.mem_append.mp he with h1 | h1
    · obtain ⟨k1, k2, d1, d2, he1, he2, hb1, hb2, hb3, hb4, hl1, hd1, hd2, hd3,
        hl2, hd4, hd5, hedge⟩ := hinv.cacheNodes e h1
      refine ⟨k1, k2, d1, d2, he1, he2, hb1, (by show k1 ≤ st.ncnt + 3; omega), hb3,
        (by show k2 ≤ st.ncnt + 3; omega), ?_, hd1, hd2, hd3, ?_, hd4, hd5,
        hI5 _ (hF5 _ hedge)⟩
      · rw [he1]
        apply hI2
        apply hF2
        · rw [← he1]
          exact hl1
        · exact ne_fmt6_of_le hnmrange hb1
      · rw [he2]
        apply hI2
        apply hF2
        · rw [← he2]
          exact hl2
        · exact ne_fmt6_of_le hnmrange hb3
    · simp only [List.mem_cons, List.not_mem_nil, or_false] at h1
      subst h1
      refine ⟨st.ncnt + 2, st.ncnt + 3,
        updateTask cfg "pipetask_init"
          (initTaskNode0 cfg gname (nd'.taskAbbrev.getD "") nd'.task_def_id),
        initFileNode (nd'.taskAbbrev.getD ""), rfl, rfl,
        (by have hl := hinv.lower; omega), (by show st.ncnt + 2 ≤ st.ncnt + 3; omega),
        (by have hl := hinv.lower; omega), (by show st.ncnt + 3 ≤ st.ncnt + 3; omega),
        hI3, rfl, rfl, rfl, hI4, rfl, rfl, hI6⟩
  · intro hri2 p hp
    rcases List.mem_append.mp hp with hp1 | hp1
    · obtain ⟨stN, sfN, hcl, hedge⟩ := hinv.initEdges hri2 p hp1
      exact ⟨stN, sfN, alookup_append_left _ hcl, hI5 _ (hF5 _ hedge)⟩
    · simp only [List.mem_cons, List.not_mem_nil, or_false] at hp1
      subst hp1
      refine ⟨fmt6 (st.ncnt + 2), fmt6 (st.ncnt + 3), ?_, hI8⟩
      rw [← hL]
      apply alookup_snoc_self
      rw [hL]
      exact hLout
  · intro hri2 e2 he2 hmem2
    rcases List.mem_append.mp he2 with h1 | h1
    · exfalso
      have hr := hinv.remOK hri2 e2 h1 (List.mem_cons_of_mem _ hmem2)
      have hh := hr.2.1
      simp only [List.head?_cons, Option.some_inj] at hh
      have hkeys : e2.1 ∈ st.init_nodes.map (fun e => e.1) :=
        List.mem_map.mpr ⟨e2, h1, rfl⟩
      rw [hh] at hLout
      exact hLout hkeys
    · simp only [List.mem_cons, List.not_mem_nil, or_false] at h1
      subst h1
      dsimp only at hmem2 ⊢
      rw [hL] at hmem2
      refine ⟨rfl, ?_, ?_⟩
      · have hd := blocks_dropWhile remTl (entryLabel (nm, nd)) hinv.remBlocks
        have hstep : (entryLabel (nm, nd) :: remTl).dropWhile
            (fun x => x = entryLabel (nm, nd)) =
            remTl.dropWhile (fun x => x = entryLabel (nm, nd)) := by
          simp [List.dropWhile]
        rw [hstep] at hd
        rw [hL]
        exact head_of_not_dropWhile hmem2 hd
      · have hd := blocks_dropWhile remTl (entryLabel (nm, nd)) hinv.remBlocks
        have hstep : (entryLabel (nm, nd) :: remTl).dropWhile
            (fun x => x = entryLabel (nm, nd)) =
            remTl.dropWhile (fun x => x = entryLabel (nm, nd)) := by
          simp [List.dropWhile]
        rw [hstep] at hd
        rw [hL]
        exact hd

theorem wfInv_fold (cfg : BpsConfig) (gname : String)
    (qgnodes : List (String × QuantumGraphTaskNodes)) {g0 : DiGraph}
    (hg0 : g0.nodes.map Prod.fst = (List.range' 1 g0.nodes.length).map fmt6)
    (remEntries : List (String × NodeData)) :
    ∀ (procEntries : List (String × NodeData)) (st : WFState),
    g0.nodes = procEntries ++ remEntries →
    WFInv cfg qgnodes g0 (procEntries.filter isTaskEntry)
      (labelsOfEntries remEntries) st →
    WFInv cfg qgnodes g0 (g0.nodes.filter isTaskEntry) []
      ((remEntries.map Prod.fst).foldl (processWFNode cfg gname qgnodes) st) := by
  induction remEntries with
  | nil =>
    intro procEntries st hsplit hinv
    simp only [List.map_nil, List.foldl_nil]
    rw [hsplit, List.append_nil]
    exact hinv
  | cons hd tl ih =>
    intro procEntries st hsplit hinv
    obtain ⟨nm, nd⟩ := hd
    have hmem : (nm, nd) ∈ g0.nodes := by
      rw [hsplit]
      exact List.mem_append.mpr (Or.inr (List.mem_cons_self _ _))
    have hsplit2 : g0.nodes = (procEntries ++ [(nm, nd)]) ++ tl := by
      rw [hsplit, List.append_assoc, List.singleton_append]
    simp only [List.map_cons, List.foldl_cons]
    cases hty : nd.nodeType with
    | FILENODE =>
      have hfilter : (procEntries ++ [(nm, nd)]).filter isTaskEntry =
          procEntries.filter isTaskEntry := by
        rw [List.filter_append]
        simp [isTaskEntry, hty]
      have hinv2 : WFInv cfg qgnodes g0 (procEntries.filter isTaskEntry)
          (labelsOfEntries tl) st := by
        rw [← labelsOfEntries_cons_file tl hty]
        exact hinv
      apply ih (procEntries ++ [(nm, nd)]) _ hsplit2
      rw [hfilter]
      exact wfInv_step_file cfg gname qgnodes hg0 hmem hty hinv2
    | TASKNODE =>
      have hfilter : (procEntries ++ [(nm, nd)]).filter isTaskEntry =
          procEntries.filter isTaskEntry ++ [(nm, nd)] := by
        rw [List.filter_append]
        simp [isTaskEntry, hty]
      have hinv2 : WFInv cfg qgnodes g0 (procEntries.filter isTaskEntry)
          (entryLabel (nm, nd) :: labelsOfEntries tl) st := by
        rw [← labelsOfEntries_cons_task tl hty]
        exact hinv
      apply ih (procEntries ++ [(nm, nd)]) _ hsplit2
      rw [hfilter]
      cases hri : cfg.runInit with
      | false => exact wfInv_step_task_noinit cfg gname qgnodes hg0 hmem hty hri hinv2
      | true =>
        cases hc : alookup st.init_nodes (entryLabel (nm, nd)) with
        | none => exact wfInv_step_task_miss cfg gname qgnodes hg0 hmem hty hri hc hinv2
        | some pr => exact wfInv_step_task_hit cfg gname qgnodes hg0 hmem hty hri hc hinv2

theorem wfInv_start (cfg : BpsConfig)
    (qgnodes : List (String × QuantumGraphTaskNodes)) {g0 : DiGraph}
    (hg0 : g0.nodes.map Prod.fst = (List.range' 1 g0.nodes.length).map fmt6)
    (hblocks : (blocks (labelsOfEntries g0.nodes)).Nodup) :
    WFInv cfg qgnodes g0 [] (labelsOfEntries g0.nodes)
      { graph := g0, ncnt := g0.nodes.length, qcnt := 0, taskcnts := [],
        init_nodes := [], sfNodeName := none, writes := [] } := by
  have hg0nodup : (g0.nodes.map Prod.fst).Nodup := names_nodup_of_range hg0
  refine { names := hg0, lower := Nat.le_refl _, orig := ?_, writes := rfl,
           qcount := rfl, ncount := by simp, descs := ?_,
           cacheNodup := List.nodup_nil, cacheKeys := ?_, cacheNodes := ?_,
           initEdges := ?_, remOK := ?_, remBlocks := hblocks }
  · intro p hp
    exact ⟨p.2, alookup_of_mem_nodup hg0nodup hp, rfl, rfl, rfl⟩
  · intro p hp
    exact absurd hp (List.not_mem_nil _)
  · intro L
    simp
  · intro e he
    exact absurd he (List.not_mem_nil _)
  · intro _ p hp
    exact absurd hp (List.not_mem_nil _)
  · intro _ e he
    exact absurd he (List.not_mem_nil _)

theorem wfInv_final (cfg : BpsConfig) (gname : String)
    (qgnodes : List (String × QuantumGraphTaskNodes)) {g0 : DiGraph}
    (hg0 : g0.nodes.map Prod.fst = (List.range' 1 g0.nodes.length).map fmt6)
    (hblocks : (blocks (taskLabelSeq g0)).Nodup) :
    WFInv cfg qgnodes g0 (taskEntries g0) []
      (wfFoldState cfg gname qgnodes g0) := by
  have hblocks2 : (blocks (labelsOfEntries g0.nodes)).Nodup := hblocks
  exact wfInv_fold cfg gname qgnodes hg0 g0.nodes []
    { graph := g0, ncnt := g0.nodes.length, qcnt := 0, taskcnts := [],
      init_nodes := [], sfNodeName := none, writes := [] }
    (List.nil_append _).symm (wfInv_start cfg qgnodes hg0 hblocks2)

theorem createWorkflowGraph_proj (cfg : BpsConfig) (gname : String)
    (pipeline : List String) (qgnodes : List (String × QuantumGraphTaskNodes))
    (g0 : DiGraph) (res : WFResult)
    (h : createWorkflowGraph cfg gname pipeline qgnodes g0 = Except.ok res) :
    res.state.writes = (wfFoldState cfg gname qgnodes g0).writes ∧
    res.state.ncnt = (wfFoldState cfg gname qgnodes g0).ncnt ∧
    res.state.graph.nodes = (wfFoldState cfg gname qgnodes g0).graph.nodes ∧
    res.state.init_nodes = (wfFoldState cfg gname qgnodes g0).init_nodes ∧
    (∀ e ∈ (wfFoldState cfg gname qgnodes g0).graph.edges,
      e ∈ res.state.graph.edges) ∧
    (cfg.runInit = true →
      linkInitAux (wfFoldState cfg gname qgnodes g0).init_nodes
        (wfFoldState cfg gname qgnodes g0).graph (pipeline.map pyStrip) =
        Except.ok res.state.graph) := by
  unfold createWorkflowGraph at h
  unfold wfFoldState
  dsimp only at h
  cases hri : cfg.runInit with
  | false =>
    simp only [hri, Bool.false_eq_true, if_false, Except.ok.injEq] at h
    subst h
    refine ⟨rfl, rfl, rfl, rfl, fun e he => he, ?_⟩
    intro hx
    cases hx
  | true =>
    simp only [hri, if_true] at h
    split at h
    · rename_i g2 heq
      simp only [Except.ok.injEq] at h
      subst h
      exact ⟨rfl, rfl, linkInitAux_nodes _ _ _ _ heq,
        rfl, fun e he => linkInitAux_edges_mono _ _ _ _ heq e he, fun _ => heq⟩
    · exact Except.noConfusion h

theorem createWorkflowGraph_ok (cfg : BpsConfig) (gname : String)
    (pipeline : List String) (qgnodes : List (String × QuantumGraphTaskNodes))
    (g0 : DiGraph)
    (hall : cfg.runInit = true → ∀ L ∈ pipeline.map pyStrip, ∃ p,
      alookup (wfFoldState cfg gname qgnodes g0).init_nodes L = some p) :
    ∃ res, createWorkflowGraph cfg gname pipeline qgnodes g0 = Except.ok res := by
  unfold wfFoldState at hall
  unfold createWorkflowGraph
  dsimp only
  cases hri : cfg.runInit with
  | false =>
    simp only [hri, Bool.false_eq_true, if_false]
    exact ⟨_, rfl⟩
  | true =>
    simp only [hri, if_true]
    obtain ⟨g2, hg2⟩ := linkInitAux_ok _ (pipeline.map pyStrip) _ (hall hri)
    rw [hg2]
    exact ⟨_, rfl⟩

/- ===== Auxiliary facts for the final claim theorems ===== -/

theorem range'_take : ∀ (N s n0 : Nat), n0 ≤ N →
    (List.range' s N).take n0 = List.range' s n0 := by
  intro N
  induction N with
  | zero =>
    intro s n0 h
    have h0 : n0 = 0 := Nat.le_zero.mp h
    subst h0
    rfl
  | succ N ih =>
    intro s n0 h
    cases n0 with
    | zero => rfl
    | succ m =>
      rw [List.range'_succ, List.range'_succ, List.take_succ_cons,
        ih (s + 1) m (by omega)]

theorem range_map_take {n0 N : Nat} (h : n0 ≤ N) :
    ((List.range' 1 N).map fmt6).take n0 = (List.range' 1 n0).map fmt6 := by
  rw [← List.map_take, range'_take N 1 n0 h]

theorem forall2_qg_alookup : ∀ (l1 : List (String × NodeData))
    (l2 : List (String × QuantumGraphTaskNodes)),
    List.Forall₂ (fun (nd : String × NodeData) (e : String × QuantumGraphTaskNodes) =>
      nd.1 = e.1 ∧ nd.2.nodeType = NodeType.TASKNODE ∧
      nd.2.taskAbbrev = some e.2.taskDef.label ∧ ∃ q, e.2.quanta = [q]) l1 l2 →
    (l1.map Prod.fst).Nodup →
    ∀ p ∈ l1, singletonEntry (alookup l2 p.1) = true := by
  intro l1
  induction l1 with
  | nil =>
    intro l2 _ _ p hp
    exact absurd hp (List.not_mem_nil _)
  | cons a t ih =>
    intro l2 hrel hnd p hp
    cases l2 with
    | nil => cases hrel
    | cons b t2 =>
      rw [List.forall₂_cons] at hrel
      obtain ⟨⟨hab, _, _, q, hq⟩, hrest⟩ := hrel
      simp only [List.map_cons, List.nodup_cons] at hnd
      rcases List.mem_cons.mp hp with rfl | hp2
      · rw [alookup_cons, if_pos hab.symm]
        simp [singletonEntry, hq]
      · have hne : b.1 ≠ p.1 := by
          intro h
          apply hnd.1
          rw [hab, h]
          exact List.mem_map.mpr ⟨p, hp2, rfl⟩
        rw [alookup_cons, if_neg hne]
        exact ih t2 hrest hnd.2 p hp2

theorem science_qgnodes_singleton (cfg : BpsConfig) (plan : Plan) :
    ∀ p ∈ taskEntries (createScienceGraph cfg plan).sciGraph,
    singletonEntry (alookup (createScienceGraph cfg plan).qgnodes p.1) = true := by
  have hinv := sciInv_createScienceGraph cfg plan
  have hnd : ((createScienceGraph cfg plan).sciGraph.nodes.map Prod.fst).Nodup :=
    names_nodup_of_range hinv.names
  have hnd2 : ((taskEntries (createScienceGraph cfg plan).sciGraph).map
      Prod.fst).Nodup :=
    List.Nodup.sublist (List.Sublist.map _ (List.filter_sublist _)) hnd
  exact forall2_qg_alookup _ _ hinv.tasks hnd2

/- ===== Claims C2, C4 and C10 ===== -/

/-- C2 counterexample: with per-task initialization enabled and an input graph
    whose task labels interleave (A, B, A), the construction succeeds but the
    third job — a task node of label A — receives its init edge from label B's
    init output file node "000009" instead of label A's "000006": the
    cache-hit branch reads the stale loop variable sfNodeName instead of the
    cached entry of the job's own label. -/
theorem C2_init_chain_counterexample :
    interResult.toOption.isSome = true ∧
    interResult = Except.ok (wfResultOr interResult) ∧
    alookup interGraph.nodes "000003" = some (smallTaskNode "A") ∧
    alookup (wfResultOr interResult).state.init_nodes "A" =
      some ("000005", "000006") ∧
    alookup (wfResultOr interResult).state.init_nodes "B" =
      some ("000008", "000009") ∧
    (("000009", "000003") ∈ (wfResultOr interResult).state.graph.edges) ∧
    (("000006", "000003") ∉ (wfResultOr interResult).state.graph.edges) := by
  decide

/-- C2: Amended init-job chaining.  With per-task initialization enabled, over
    every input graph obeying the science counter discipline whose same-label
    task nodes are contiguous in node order, and every pipeline whose stripped
    labels all have at least one job (both as the science builder produces),
    the construction succeeds and: the augmenter creates exactly one init task
    node and one init-output file node per task label (one cache entry per
    label, the cached names holding a TASKNODE labelled with the task label
    and a FILENODE carrying the <label>_init logical file, joined by an edge);
    every job gets the edge from its own label's init-output file node,
    subsequent jobs of a label reusing the cached nodes; and each consecutive
    pair of pipeline labels is linked by an edge from the earlier label's
    init-output file node to the later label's init task node.  Without
    contiguity the per-job edge claim fails (C2_init_chain_counterexample);
    a pipeline label without jobs makes _link_init_nodes raise KeyError and
    abort the construction, so no workflow is produced at all. -/
theorem C2_init_chaining_amended (cfg : BpsConfig) (gname : String)
    (pipeline : List String) (qgnodes : List (String × QuantumGraphTaskNodes))
    (g0 : DiGraph)
    (hg0 : g0.nodes.map Prod.fst = (List.range' 1 g0.nodes.length).map fmt6)
    (hblocks : (blocks (taskLabelSeq g0)).Nodup)
    (hri : cfg.runInit = true)
    (hpl : ∀ L ∈ pipeline.map pyStrip, L ∈ taskLabelSeq g0) :
    ∃ res, createWorkflowGraph cfg gname pipeline qgnodes g0 = Except.ok res ∧
      (res.state.init_nodes.map (fun e => e.1)).Nodup ∧
      (∀ L, L ∈ res.state.init_nodes.map (fun e => e.1) ↔ L ∈ taskLabelSeq g0) ∧
      (∀ e ∈ res.state.init_nodes, ∃ d1 d2,
        alookup res.state.graph.nodes e.2.1 = some d1 ∧
        d1.nodeType = NodeType.TASKNODE ∧ d1.taskAbbrev = some e.1 ∧
        alookup res.state.graph.nodes e.2.2 = some d2 ∧
        d2.nodeType = NodeType.FILENODE ∧ d2.lfn = some (e.1 ++ "_init") ∧
        (e.2.1, e.2.2) ∈ res.state.graph.edges) ∧
      (∀ p ∈ taskEntries g0, ∃ stN sfN,
        alookup res.state.init_nodes (entryLabel p) = some (stN, sfN) ∧
        (sfN, p.1) ∈ res.state.graph.edges) ∧
      (∀ (pre : List String) (a b : String) (post : List String),
        pipeline.map pyStrip = pre ++ a :: b :: post →
        ∃ pa pb, alookup res.state.init_nodes a = some pa ∧
          alookup res.state.init_nodes b = some pb ∧
          (pa.2, pb.1) ∈ res.state.graph.edges) := by
  have hinv := wfInv_final cfg gname qgnodes hg0 hblocks
  have hcached : ∀ L ∈ pipeline.map pyStrip, ∃ p,
      alookup (wfFoldState cfg gname qgnodes g0).init_nodes L = some p := by
    intro L hL
    have hkey : L ∈ (wfFoldState cfg gname qgnodes g0).init_nodes.map
        (fun e => e.1) := (hinv.cacheKeys L).mpr ⟨hri, hpl L hL⟩
    cases hc : alookup (wfFoldState cfg gname qgnodes g0).init_nodes L with
    | none =>
      exact absurd (alookup_eq_none.mp hc)
        (by
          intro hcon
          exact hcon hkey)
    | some p => exact ⟨p, rfl⟩
  obtain ⟨res, hres⟩ :=
    createWorkflowGraph_ok cfg gname pipeline qgnodes g0 (fun _ => hcached)
  obtain ⟨hw, hn, hnodes, hinit, hedges, hlink⟩ :=
    createWorkflowGraph_proj cfg gname pipeline qgnodes g0 res hres
  refine ⟨res, hres, ?_, ?_, ?_, ?_, ?_⟩
  · rw [hinit]
    exact hinv.cacheNodup
  · intro L
    rw [hinit]
    constructor
    · intro h
      exact ((hinv.cacheKeys L).mp h).2
    · intro h
      exact (hinv.cacheKeys L).mpr ⟨hri, h⟩
  · intro e he
    rw [hinit] at he
    obtain ⟨k1, k2, d1, d2, he1, he2, hb1, hb2, hb3, hb4, hl1, hd1, hd2, hd3,
      hl2, hd4, hd5, hedge⟩ := hinv.cacheNodes e he
    refine ⟨d1, d2, ?_, hd1, hd2, ?_, hd4, hd5, hedges _ hedge⟩
    · rw [hnodes]
      exact hl1
    · rw [hnodes]
      exact hl2
  · intro p hp
    obtain ⟨stN, sfN, hcl, hedge⟩ := hinv.initEdges hri p hp
    refine ⟨stN, sfN, ?_, hedges _ hedge⟩
    rw [hinit]
    exact hcl
  · intro pre a b post hsplit
    have hamem : a ∈ pipeline.map pyStrip := by
      rw [hsplit]
      exact List.mem_append.mpr (Or.inr (List.mem_cons_self _ _))
    have hbmem : b ∈ pipeline.map pyStrip := by
      rw [hsplit]
      exact List.mem_append.mpr
        (Or.inr (List.mem_cons_of_mem _ (List.mem_cons_self _ _)))
    obtain ⟨pa, ha⟩ := hcached a hamem
    obtain ⟨pb, hb⟩ := hcached b hbmem
    have hlk := hlink hri
    rw [hsplit] at hlk
    refine ⟨pa, pb, ?_, ?_, ?_⟩
    · rw [hinit]
      exact ha
    · rw [hinit]
      exact hb
    · exact linkInitAux_adds _ pre a b post _ _ pa pb ha hb hlk

/-- Closed witness for C2_init_chaining_amended on the contiguous-label graph
    (A, A, B): the hypotheses hold by computation and the successful
    construction with its per-job init edges follows by the theorem. -/
theorem C2_init_chaining_amended_witness :
    (contigGraph.nodes.map Prod.fst =
      (List.range' 1 contigGraph.nodes.length).map fmt6) ∧
    (blocks (taskLabelSeq contigGraph)).Nodup ∧
    runInitConfig.runInit = true ∧
    (∀ L ∈ (["A", "B"] : List String).map pyStrip, L ∈ taskLabelSeq contigGraph) ∧
    (∃ res, createWorkflowGraph runInitConfig "run" ["A", "B"] contigQgnodes
        contigGraph = Except.ok res ∧
      ∀ p ∈ taskEntries contigGraph, ∃ stN sfN,
        alookup res.state.init_nodes (entryLabel p) = some (stN, sfN) ∧
        (sfN, p.1) ∈ res.state.graph.edges) := by
  refine ⟨by decide, by decide, rfl, by decide, ?_⟩
  obtain ⟨res, hres, _, _, _, hjobs, _⟩ :=
    C2_init_chaining_amended runInitConfig "run" ["A", "B"] contigQgnodes
      contigGraph (by decide) (by decide) rfl (by decide)
  exact ⟨res, hres, hjobs⟩

/-- C4: For every task node processed by the workflow-graph augmenter (over
    any input graph obeying the science counter discipline with contiguous
    task labels, and a quantum store holding one single-quantum entry per task
    node, as the science builder produces), exactly one descriptor write is
    recorded, in node order, at <submitPath>/input/<label>/quantum<nodeId>
    with exactly that node's quantum-store entry as payload; a fresh FILENODE
    whose pfn is that path (lfn quantum<nodeId>, data type quantum) is added
    under an identifier above the input-graph range, with an edge from the
    descriptor node to the task node; and every recorded payload is a
    single-quantum entry.  Stated of any result the construction returns (the
    init-linking pass can abort the whole run but adds no nodes and no writes,
    so these fold-time facts hold in every produced workflow).  What the
    filesystem does with the path (directory creation, serialization) is
    outside the embedding. -/
theorem C4_descriptor_persistence (cfg : BpsConfig) (gname : String)
    (pipeline : List String) (qgnodes : List (String × QuantumGraphTaskNodes))
    (g0 : DiGraph) (res : WFResult)
    (hg0 : g0.nodes.map Prod.fst = (List.range' 1 g0.nodes.length).map fmt6)
    (hblocks : (blocks (taskLabelSeq g0)).Nodup)
    (hq : ∀ p ∈ taskEntries g0, singletonEntry (alookup qgnodes p.1) = true)
    (h : createWorkflowGraph cfg gname pipeline qgnodes g0 = Except.ok res) :
    res.state.writes =
      (taskEntries g0).map (fun p =>
        (descPath cfg (entryLabel p) p.1, alookup qgnodes p.1)) ∧
    (∀ p ∈ taskEntries g0, ∃ k qd, g0.nodes.length < k ∧
      alookup res.state.graph.nodes (fmt6 k) = some qd ∧
      qd.nodeType = NodeType.FILENODE ∧
      qd.pfn = some (descPath cfg (entryLabel p) p.1) ∧
      qd.lfn = some (qlfnOf p.1) ∧
      qd.data_type = some "quantum" ∧
      (fmt6 k, p.1) ∈ res.state.graph.edges) ∧
    (∀ w ∈ res.state.writes,
      ∃ e, w.2 = some e ∧ e.quanta.length = 1) := by
  obtain ⟨hw, hn, hnodes, hinit, hedges, hlink⟩ :=
    createWorkflowGraph_proj cfg gname pipeline qgnodes g0 res h
  have hinv := wfInv_final cfg gname qgnodes hg0 hblocks
  refine ⟨?_, ?_, ?_⟩
  · rw [hw]
    exact hinv.writes
  · intro p hp
    obtain ⟨k, qd, hk1, hk2, hlk, hty, hpfn, hlfn, hign, hdt, hedge⟩ :=
      hinv.descs p hp
    refine ⟨k, qd, hk1, ?_, hty, hpfn, hlfn, hdt, hedges _ hedge⟩
    rw [hnodes]
    exact hlk
  · intro w hwm
    rw [hw, hinv.writes] at hwm
    obtain ⟨p, hp, hwp⟩ := List.mem_map.mp hwm
    have hq2 := hq p hp
    cases hcc : alookup qgnodes p.1 with
    | none =>
      rw [hcc] at hq2
      exact absurd hq2 (by simp [singletonEntry])
    | some e =>
      rw [hcc] at hq2
      simp only [singletonEntry, beq_iff_eq] at hq2
      refine ⟨e, ?_, hq2⟩
      rw [← hwp]
      show alookup qgnodes p.1 = some e
      exact hcc

/-- Closed witness for C4_descriptor_persistence on the contiguous-label
    graph: the hypotheses hold by computation and the recorded writes follow
    by the theorem. -/
theorem C4_descriptor_persistence_witness :
    (contigGraph.nodes.map Prod.fst =
      (List.range' 1 contigGraph.nodes.length).map fmt6) ∧
    (blocks (taskLabelSeq contigGraph)).Nodup ∧
    (∀ p ∈ taskEntries contigGraph,
      singletonEntry (alookup contigQgnodes p.1) = true) ∧
    createWorkflowGraph runInitConfig "run" ["A", "B"] contigQgnodes contigGraph =
      Except.ok (wfResultOr contigResult) ∧
    (wfResultOr contigResult).state.writes =
      (taskEntries contigGraph).map (fun p =>
        (descPath runInitConfig (entryLabel p) p.1, alookup contigQgnodes p.1)) :=
  ⟨by decide, by decide, by decide, by decide,
    (C4_descriptor_persistence runInitConfig "run" ["A", "B"] contigQgnodes
      contigGraph (wfResultOr contigResult) (by decide) (by decide) (by decide)
      (by decide)).1⟩

/-- C10: Every node the workflow-graph augmenter adds receives a fresh
    identifier strictly above every identifier already present: over any input
    graph obeying the science counter discipline (with contiguous task
    labels), in any workflow the construction returns the node-name sequence
    is exactly fmt6 of 1..ncnt in order for the resumed counter value ncnt,
    the input names survive as the unchanged prefix, the counter never goes
    below the input node count, and the final name list has no duplicates —
    no add_node call merges with or overwrites an existing node (the
    init-linking pass adds no nodes). -/
theorem C10_fresh_identifiers (cfg : BpsConfig) (gname : String)
    (pipeline : List String) (qgnodes : List (String × QuantumGraphTaskNodes))
    (g0 : DiGraph) (res : WFResult)
    (hg0 : g0.nodes.map Prod.fst = (List.range' 1 g0.nodes.length).map fmt6)
    (hblocks : (blocks (taskLabelSeq g0)).Nodup)
    (h : createWorkflowGraph cfg gname pipeline qgnodes g0 = Except.ok res) :
    res.state.graph.nodes.map Prod.fst =
      (List.range' 1 res.state.ncnt).map fmt6 ∧
    g0.nodes.length ≤ res.state.ncnt ∧
    (res.state.graph.nodes.map Prod.fst).take g0.nodes.length =
      g0.nodes.map Prod.fst ∧
    (res.state.graph.nodes.map Prod.fst).Nodup := by
  obtain ⟨hw, hn, hnodes, hinit, hedges, hlink⟩ :=
    createWorkflowGraph_proj cfg gname pipeline qgnodes g0 res h
  have hinv := wfInv_final cfg gname qgnodes hg0 hblocks
  have hnames : res.state.graph.nodes.map Prod.fst =
      (List.range' 1 res.state.ncnt).map fmt6 := by
    rw [hnodes, hn]
    exact hinv.names
  refine ⟨hnames, ?_, ?_, names_nodup_of_range hnames⟩
  · rw [hn]
    exact hinv.lower
  · rw [hnames, hn, range_map_take hinv.lower, ← hg0]

/-- Closed witness for C10_fresh_identifiers on the contiguous-label graph:
    the hypotheses hold by computation and the name-freshness facts follow by
    the theorem. -/
theorem C10_fresh_identifiers_witness :
    (contigGraph.nodes.map Prod.fst =
      (List.range' 1 contigGraph.nodes.length).map fmt6) ∧
    (blocks (taskLabelSeq contigGraph)).Nodup ∧
    createWorkflowGraph runInitConfig "run" ["A", "B"] contigQgnodes contigGraph =
      Except.ok (wfResultOr contigResult) ∧
    ((wfResultOr contigResult).state.graph.nodes.map Prod.fst).Nodup :=
  ⟨by decide, by decide, by decide,
    (C10_fresh_identifiers runInitConfig "run" ["A", "B"] contigQgnodes
      contigGraph (wfResultOr contigResult) (by decide) (by decide)
      (by decide)).2.2.2⟩

end CtrlBps
